import Mathlib

/-!
# Verification of the gpx-extractor document model and statistics engine

Shallow embedding of the Rust sources under `src/src/gpx/` (`point.rs`,
`track.rs`, `waypoint.rs`, `parser.rs`).  Rust `f64` values are modelled as
exact rationals (`ℚ`) except where the code performs transcendental
arithmetic (the haversine formula), which is modelled over the reals (`ℝ`).
`chrono::DateTime<Utc>` timestamps are modelled as an integer count of
seconds (`ℤ`): `chrono` instants are totally ordered and their difference
in `num_seconds` is the difference of the second counts.  Rust `String`
data is modelled as `List Char`.
-/

/-- Model of `Point` (src/src/gpx/point.rs): latitude, longitude, optional
elevation, optional timestamp. -/
structure Point where
  lat : ℚ
  lon : ℚ
  elevation : Option ℚ
  time : Option ℤ
deriving DecidableEq

/-- Model of `TrackSegment` (src/src/gpx/track.rs). -/
structure TrackSegment where
  points : List Point
deriving DecidableEq

/-- Model of `Track` (src/src/gpx/track.rs): optional name and segments. -/
structure Track where
  name : Option (List Char)
  segments : List TrackSegment
deriving DecidableEq

/-- Model of `Waypoint` (src/src/gpx/waypoint.rs). -/
structure Waypoint where
  lat : ℚ
  lon : ℚ
  name : Option (List Char)
  elevation : Option ℚ
  time : Option ℤ
deriving DecidableEq

/-- Model of `Metadata` (src/src/gpx/parser.rs): the `time` child kept as a
raw string. -/
structure Metadata where
  time : Option (List Char)
deriving DecidableEq

/-- Model of `Gpx` (src/src/gpx/parser.rs): the root aggregate. -/
structure Gpx where
  tracks : List Track
  waypoints : List Waypoint
  metadata : Option Metadata
deriving DecidableEq

/-- Model of `GpxRoot` (src/src/gpx/parser.rs): the serde wire shape with
the `version` and `creator` attributes. -/
structure GpxRoot where
  version : List Char
  creator : List Char
  metadata : Option Metadata
  tracks : List Track
  waypoints : List Waypoint
deriving DecidableEq

/-- `default_version` (src/src/gpx/parser.rs). -/
def default_version : List Char := "1.1".toList

/-- `default_creator` (src/src/gpx/parser.rs). -/
def default_creator : List Char := "gpx-extractor".toList

/-! ## Haversine distance (src/src/gpx/point.rs) -/

/-- Rust `f64::to_radians`: multiply by π/180. -/
noncomputable def toRadians (x : ℚ) : ℝ := (x : ℝ) * (Real.pi / 180)

/-- Rust `f64::atan2 (self = y, other = x)`: the two-argument arctangent,
modelled over `ℝ` by the usual piecewise definition. -/
noncomputable def atan2 (y x : ℝ) : ℝ :=
  if 0 < x then Real.arctan (y / x)
  else if x < 0 then
    (if 0 ≤ y then Real.arctan (y / x) + Real.pi else Real.arctan (y / x) - Real.pi)
  else
    (if 0 < y then Real.pi / 2 else if y < 0 then -(Real.pi / 2) else 0)

/-- The local `a` of `haversine_distance` (src/src/gpx/point.rs):
`sin²(Δlat/2) + cos(lat1)·cos(lat2)·sin²(Δlon/2)` with the radian
conversions of the source inlined. -/
noncomputable def havTerm (p1 p2 : Point) : ℝ :=
  Real.sin (toRadians (p2.lat - p1.lat) / 2) ^ 2
    + Real.cos (toRadians p1.lat) * Real.cos (toRadians p2.lat)
      * Real.sin (toRadians (p2.lon - p1.lon) / 2) ^ 2

/-- `haversine_distance` (src/src/gpx/point.rs): great-circle distance in
kilometers, Earth radius `R = 6371.0`, `atan2`-based formula
`R * (2 * atan2(sqrt a, sqrt (1 - a)))`. -/
noncomputable def haversine_distance (p1 p2 : Point) : ℝ :=
  6371 * (2 * atan2 (Real.sqrt (havTerm p1 p2)) (Real.sqrt (1 - havTerm p1 p2)))

/-! ## Segment and track metrics (src/src/gpx/track.rs) -/

/-- Sum of haversine distances over `windows(2)` of a point list, the body
of `TrackSegment::distance_km`. -/
noncomputable def windowDistSum : List Point → ℝ
  | p :: q :: rest => haversine_distance p q + windowDistSum (q :: rest)
  | _ => 0

/-- `TrackSegment::distance_km` (src/src/gpx/track.rs). -/
noncomputable def TrackSegment.distance_km (s : TrackSegment) : ℝ :=
  if s.points.length < 2 then 0 else windowDistSum s.points

/-- `TrackSegment::point_count` (src/src/gpx/track.rs). -/
def TrackSegment.point_count (s : TrackSegment) : ℕ := s.points.length

/-- `Track::get_all_points` (src/src/gpx/track.rs). -/
def Track.get_all_points (t : Track) : List Point :=
  (t.segments.map TrackSegment.points).flatten

/-- `Track::total_distance_km` (src/src/gpx/track.rs). -/
noncomputable def Track.total_distance_km (t : Track) : ℝ :=
  (t.segments.map TrackSegment.distance_km).sum

/-- `Track::total_points` (src/src/gpx/track.rs). -/
def Track.total_points (t : Track) : ℕ :=
  (t.segments.map TrackSegment.point_count).sum

/-! ## Document statistics (src/src/gpx/parser.rs) -/

/-- `Gpx::get_all_points` (src/src/gpx/parser.rs): all points of all
tracks, in order; waypoints are not included. -/
def Gpx.get_all_points (d : Gpx) : List Point :=
  (d.tracks.map Track.get_all_points).flatten

/-- `Gpx::total_distance_km` (src/src/gpx/parser.rs). -/
noncomputable def Gpx.total_distance_km (d : Gpx) : ℝ :=
  (d.tracks.map Track.total_distance_km).sum

/-- `Gpx::total_points` (src/src/gpx/parser.rs). -/
def Gpx.total_points (d : Gpx) : ℕ :=
  (d.tracks.map Track.total_points).sum

/-- `Gpx::total_segments` (src/src/gpx/parser.rs). -/
def Gpx.total_segments (d : Gpx) : ℕ :=
  (d.tracks.map (fun t => t.segments.length)).sum

/-- The `windows(2)` view of a list: every consecutive pair, in order. -/
def consecPairs {α : Type} : List α → List (α × α)
  | a :: b :: rest => (a, b) :: consecPairs (b :: rest)
  | _ => []

/-- The consecutive point pairs the elevation-gain/loss loops of
`Gpx::total_elevation_gain` / `Gpx::total_elevation_loss` iterate over:
`windows(2)` within each segment of each track, never across a segment or
track boundary. -/
def Gpx.segmentPairs (d : Gpx) : List (Point × Point) :=
  ((d.tracks.map (fun t =>
    (t.segments.map (fun s => consecPairs s.points)).flatten)).flatten)

/-- One iteration of the loop body of `Gpx::total_elevation_gain`
(src/src/gpx/parser.rs lines 116-128): state is
`(total_gain, has_elevation)`. -/
def gainStep (acc : ℚ × Bool) (pr : Point × Point) : ℚ × Bool :=
  match pr.1.elevation, pr.2.elevation with
  | some ele1, some ele2 =>
      (if ele2 - ele1 > 0 then acc.1 + (ele2 - ele1) else acc.1, true)
  | _, _ => acc

/-- One iteration of the loop body of `Gpx::total_elevation_loss`
(src/src/gpx/parser.rs lines 142-154). -/
def lossStep (acc : ℚ × Bool) (pr : Point × Point) : ℚ × Bool :=
  match pr.1.elevation, pr.2.elevation with
  | some ele1, some ele2 =>
      (if ele2 - ele1 < 0 then acc.1 + |ele2 - ele1| else acc.1, true)
  | _, _ => acc

/-- `Gpx::total_elevation_gain` (src/src/gpx/parser.rs). -/
def Gpx.total_elevation_gain (d : Gpx) : Option ℚ :=
  let r := d.segmentPairs.foldl gainStep (0, false)
  if r.2 then some r.1 else none

/-- `Gpx::total_elevation_loss` (src/src/gpx/parser.rs). -/
def Gpx.total_elevation_loss (d : Gpx) : Option ℚ :=
  let r := d.segmentPairs.foldl lossStep (0, false)
  if r.2 then some r.1 else none

/-- The timestamps collected by `Gpx::total_duration_seconds`: every
`time` present on any point of any track. -/
def Gpx.allTimes (d : Gpx) : List ℤ :=
  d.get_all_points.filterMap Point.time

/-- `Gpx::total_duration_seconds` (src/src/gpx/parser.rs): `None` when no
point carries a timestamp, otherwise `max - min` of the collected
timestamps in whole seconds. -/
def Gpx.total_duration_seconds (d : Gpx) : Option ℤ :=
  match d.allTimes with
  | [] => none
  | t :: rest => some (rest.foldl max t - rest.foldl min t)

/-- `Gpx::average_speed_kmh` (src/src/gpx/parser.rs). -/
noncomputable def Gpx.average_speed_kmh (d : Gpx) : Option ℝ :=
  match d.total_duration_seconds with
  | none => none
  | some duration_seconds =>
      if duration_seconds = 0 then none
      else some (d.total_distance_km / ((duration_seconds : ℝ) / 3600))

/-- `Gpx::add_track` (src/src/gpx/parser.rs): `Vec::push` on `tracks`. -/
def Gpx.add_track (d : Gpx) (t : Track) : Gpx :=
  { d with tracks := d.tracks ++ [t] }

/-- `Gpx::add_waypoint` (src/src/gpx/parser.rs): `Vec::push` on
`waypoints`. -/
def Gpx.add_waypoint (d : Gpx) (w : Waypoint) : Gpx :=
  { d with waypoints := d.waypoints ++ [w] }

/-- `Gpx::is_empty` (src/src/gpx/parser.rs). -/
def Gpx.is_empty (d : Gpx) : Bool :=
  d.tracks.isEmpty && d.waypoints.isEmpty

/-! ## Theorems: C9 and C10 -/

/-- C9: `is_empty` returns `true` iff both the tracks sequence and the
waypoints sequence are empty; the metadata field is ignored, so a document
whose only content is metadata is still reported empty. -/
theorem is_empty_iff_no_tracks_and_no_waypoints (d : Gpx) :
    (d.is_empty = true ↔ d.tracks = [] ∧ d.waypoints = []) ∧
    (∀ m : Option Metadata, (Gpx.mk d.tracks d.waypoints m).is_empty = d.is_empty) := by
  constructor
  · simp [Gpx.is_empty, List.isEmpty_iff]
  · intro m
    simp [Gpx.is_empty]

/-- C10: `add_track` appends the track at the end of `tracks` (prior
tracks keep position and value) and leaves `waypoints` and `metadata`
unchanged; `add_waypoint` appends to `waypoints` and leaves `tracks` and
`metadata` unchanged. -/
theorem add_track_appends_and_frames (d : Gpx) (t : Track) (w : Waypoint) :
    (d.add_track t).tracks = d.tracks ++ [t] ∧
    (d.add_track t).waypoints = d.waypoints ∧
    (d.add_track t).metadata = d.metadata ∧
    (∀ i : ℕ, i < d.tracks.length → (d.add_track t).tracks[i]? = d.tracks[i]?) ∧
    (d.add_track t).tracks[d.tracks.length]? = some t ∧
    (d.add_waypoint w).waypoints = d.waypoints ++ [w] ∧
    (d.add_waypoint w).tracks = d.tracks ∧
    (d.add_waypoint w).metadata = d.metadata := by
  refine ⟨rfl, rfl, rfl, ?_, ?_, rfl, rfl, rfl⟩
  · intro i hi
    simp [Gpx.add_track, List.getElem?_append_left hi]
  · simp [Gpx.add_track]

/-- Closed instance of `add_track_appends_and_frames` at a concrete
document, discharging its index hypothesis. -/
theorem add_track_appends_witness :
    ((Gpx.mk [Track.mk none []] [] none).add_track (Track.mk none [])).tracks[0]? =
      some (Track.mk none []) := by
  have h := add_track_appends_and_frames (Gpx.mk [Track.mk none []] []
    none) (Track.mk none []) (Waypoint.mk 0 0 none none none)
  exact (h.2.2.2.1 0 (by decide)).trans (by decide)

/-! ## Theorems: C8 (haversine) and C7 (segment distance) -/

/-- The haversine square term is symmetric in its two points. -/
theorem havTerm_symm (p1 p2 : Point) : havTerm p1 p2 = havTerm p2 p1 := by
  unfold havTerm
  have hlat : toRadians (p1.lat - p2.lat) = -toRadians (p2.lat - p1.lat) := by
    unfold toRadians; push_cast; ring
  have hlon : toRadians (p1.lon - p2.lon) = -toRadians (p2.lon - p1.lon) := by
    unfold toRadians; push_cast; ring
  rw [hlat, hlon, neg_div, neg_div, Real.sin_neg, Real.sin_neg]
  ring

/-- The haversine square term vanishes for identical coordinates. -/
theorem havTerm_self (p1 p2 : Point) (hlat : p1.lat = p2.lat)
    (hlon : p1.lon = p2.lon) : havTerm p1 p2 = 0 := by
  unfold havTerm
  rw [hlat, hlon, sub_self, sub_self]
  have h0 : toRadians 0 = 0 := by unfold toRadians; push_cast; ring
  rw [h0]
  simp

/-- C8: `haversine_distance` is symmetric, is zero whenever the two points
carry equal coordinates, and is the `atan2`-based haversine formula with
Earth radius 6371.0 km. -/
theorem haversine_distance_symm_zero_formula :
    (∀ p1 p2 : Point, haversine_distance p1 p2 = haversine_distance p2 p1) ∧
    (∀ p1 p2 : Point, p1.lat = p2.lat → p1.lon = p2.lon →
      haversine_distance p1 p2 = 0) ∧
    (∀ p1 p2 : Point, haversine_distance p1 p2 =
      6371 * (2 * atan2 (Real.sqrt (havTerm p1 p2))
        (Real.sqrt (1 - havTerm p1 p2)))) := by
  refine ⟨?_, ?_, fun p1 p2 => rfl⟩
  · intro p1 p2
    unfold haversine_distance
    rw [havTerm_symm]
  · intro p1 p2 hlat hlon
    unfold haversine_distance
    rw [havTerm_self p1 p2 hlat hlon]
    have h1 : atan2 (Real.sqrt 0) (Real.sqrt (1 - 0)) = 0 := by
      rw [Real.sqrt_zero, sub_zero, Real.sqrt_one]
      unfold atan2
      rw [if_pos one_pos]
      simp [Real.arctan_zero]
    rw [h1, mul_zero, mul_zero]

/-- Closed instance of `haversine_distance_symm_zero_formula`: the zero
conjunct applied at two points with equal coordinates. -/
theorem haversine_distance_zero_witness :
    haversine_distance (Point.mk 40.7128 (-74.006) none none)
      (Point.mk 40.7128 (-74.006) (some 10) none) = 0 :=
  haversine_distance_symm_zero_formula.2.1
    (Point.mk 40.7128 (-74.006) none none)
    (Point.mk 40.7128 (-74.006) (some 10) none) rfl rfl

/-- `windowDistSum` is the sum of the haversine distances of the
consecutive pairs. -/
theorem windowDistSum_eq_sum (l : List Point) :
    windowDistSum l =
      ((consecPairs l).map (fun pr => haversine_distance pr.1 pr.2)).sum := by
  induction l with
  | nil => simp [windowDistSum, consecPairs]
  | cons p rest ih =>
    cases rest with
    | nil => simp [windowDistSum, consecPairs]
    | cons q rest2 =>
      simp only [windowDistSum, consecPairs, List.map_cons, List.sum_cons]
      rw [ih]

/-- C7: `TrackSegment::distance_km` equals the sum of the haversine
distance over every consecutive pair of the segment's points, and is
exactly `0.0` for a segment with zero or one points. -/
theorem distance_km_eq_pair_sum (s : TrackSegment) :
    s.distance_km =
      ((consecPairs s.points).map (fun pr => haversine_distance pr.1 pr.2)).sum ∧
    (s.points.length ≤ 1 → s.distance_km = 0) := by
  constructor
  · unfold TrackSegment.distance_km
    split
    · rename_i h
      match hp : s.points, h with
      | [], _ => simp [consecPairs]
      | [p], _ => simp [consecPairs]
    · exact windowDistSum_eq_sum s.points
  · intro h
    unfold TrackSegment.distance_km
    rw [if_pos (by omega)]

/-- Closed instance of `distance_km_eq_pair_sum` at a one-point segment,
discharging the length hypothesis. -/
theorem distance_km_zero_witness :
    (TrackSegment.mk [Point.mk 1 2 none none]).distance_km = 0 :=
  (distance_km_eq_pair_sum (TrackSegment.mk [Point.mk 1 2 none none])).2
    (by decide)

/-! ## Theorems: C3 (elevation gain and loss) -/

/-- The qualifying pairs of the gain/loss loops: the elevations of the
consecutive within-segment pairs where both points carry an elevation. -/
def bothElevPairs (d : Gpx) : List (ℚ × ℚ) :=
  d.segmentPairs.filterMap (fun pr =>
    match pr.1.elevation, pr.2.elevation with
    | some ele1, some ele2 => some (ele1, ele2)
    | _, _ => none)

/-- Sum of the positive elevation deltas of a list of elevation pairs. -/
def gainSpecSum (l : List (ℚ × ℚ)) : ℚ :=
  (l.map (fun pr => if pr.1 < pr.2 then pr.2 - pr.1 else 0)).sum

/-- Sum of the absolute negative elevation deltas of a list of elevation
pairs. -/
def lossSpecSum (l : List (ℚ × ℚ)) : ℚ :=
  (l.map (fun pr => if pr.2 < pr.1 then pr.1 - pr.2 else 0)).sum

/-- The elevation pairs of a point-pair list. -/
def elevOf (l : List (Point × Point)) : List (ℚ × ℚ) :=
  l.filterMap (fun pr =>
    match pr.1.elevation, pr.2.elevation with
    | some ele1, some ele2 => some (ele1, ele2)
    | _, _ => none)

/-- Unfolding the gain loop: the accumulator collects the sum of positive
deltas over the qualifying pairs, and the flag records whether any
qualifying pair was seen. -/
theorem foldl_gainStep (l : List (Point × Point)) (a : ℚ) (b : Bool) :
    l.foldl gainStep (a, b) =
      (a + gainSpecSum (elevOf l), b || !(elevOf l).isEmpty) := by
  induction l generalizing a b with
  | nil => simp [gainSpecSum, elevOf]
  | cons pr rest ih =>
    rw [List.foldl_cons]
    cases h1 : pr.1.elevation with
    | none =>
      have hstep : gainStep (a, b) pr = (a, b) := by
        unfold gainStep; rw [h1]
      have helev : elevOf (pr :: rest) = elevOf rest := by
        unfold elevOf; rw [List.filterMap_cons]; rw [h1]
      rw [hstep, helev, ih]
    | some ele1 =>
      cases h2 : pr.2.elevation with
      | none =>
        have hstep : gainStep (a, b) pr = (a, b) := by
          unfold gainStep; rw [h1, h2]
        have helev : elevOf (pr :: rest) = elevOf rest := by
          unfold elevOf; rw [List.filterMap_cons]; rw [h1, h2]
        rw [hstep, helev, ih]
      | some ele2 =>
        have hstep : gainStep (a, b) pr =
            (if ele2 - ele1 > 0 then a + (ele2 - ele1) else a, true) := by
          unfold gainStep; rw [h1, h2]
        have helev : elevOf (pr :: rest) = (ele1, ele2) :: elevOf rest := by
          unfold elevOf; rw [List.filterMap_cons]; rw [h1, h2]
        rw [hstep, helev, ih]
        have hsum : gainSpecSum ((ele1, ele2) :: elevOf rest) =
            (if ele1 < ele2 then ele2 - ele1 else 0) + gainSpecSum (elevOf rest) := by
          unfold gainSpecSum; rw [List.map_cons, List.sum_cons]
        rw [hsum, Prod.mk.injEq]
        constructor
        · by_cases hpos : ele1 < ele2
          · rw [if_pos hpos, if_pos (by linarith)]; ring
          · rw [if_neg hpos, if_neg (by intro h; exact hpos (by linarith))]; ring
        · simp

/-- Unfolding the loss loop, symmetrically. -/
theorem foldl_lossStep (l : List (Point × Point)) (a : ℚ) (b : Bool) :
    l.foldl lossStep (a, b) =
      (a + lossSpecSum (elevOf l), b || !(elevOf l).isEmpty) := by
  induction l generalizing a b with
  | nil => simp [lossSpecSum, elevOf]
  | cons pr rest ih =>
    rw [List.foldl_cons]
    cases h1 : pr.1.elevation with
    | none =>
      have hstep : lossStep (a, b) pr = (a, b) := by
        unfold lossStep; rw [h1]
      have helev : elevOf (pr :: rest) = elevOf rest := by
        unfold elevOf; rw [List.filterMap_cons]; rw [h1]
      rw [hstep, helev, ih]
    | some ele1 =>
      cases h2 : pr.2.elevation with
      | none =>
        have hstep : lossStep (a, b) pr = (a, b) := by
          unfold lossStep; rw [h1, h2]
        have helev : elevOf (pr :: rest) = elevOf rest := by
          unfold elevOf; rw [List.filterMap_cons]; rw [h1, h2]
        rw [hstep, helev, ih]
      | some ele2 =>
        have hstep : lossStep (a, b) pr =
            (if ele2 - ele1 < 0 then a + |ele2 - ele1| else a, true) := by
          unfold lossStep; rw [h1, h2]
        have helev : elevOf (pr :: rest) = (ele1, ele2) :: elevOf rest := by
          unfold elevOf; rw [List.filterMap_cons]; rw [h1, h2]
        rw [hstep, helev, ih]
        have hsum : lossSpecSum ((ele1, ele2) :: elevOf rest) =
            (if ele2 < ele1 then ele1 - ele2 else 0) + lossSpecSum (elevOf rest) := by
          unfold lossSpecSum; rw [List.map_cons, List.sum_cons]
        rw [hsum, Prod.mk.injEq]
        constructor
        · by_cases hneg : ele2 < ele1
          · rw [if_pos (by linarith), if_pos hneg,
              abs_of_neg (by linarith : ele2 - ele1 < 0)]
            ring
          · rw [if_neg (by intro h; exact hneg (by linarith)), if_neg hneg]; ring
        · simp

/-- C3: `total_elevation_gain` and `total_elevation_loss` accumulate the
positive deltas (gain) and the absolute negative deltas (loss) over
exactly the consecutive within-segment point pairs where both points
carry an elevation (the pairs of `Gpx.segmentPairs`, which never straddle
a segment or track boundary), and each returns `none` if and only if no
such pair exists, otherwise the (possibly zero) accumulated value. -/
theorem elevation_gain_loss_characterized (d : Gpx) :
    (d.total_elevation_gain = none ↔ bothElevPairs d = []) ∧
    (d.total_elevation_loss = none ↔ bothElevPairs d = []) ∧
    (bothElevPairs d ≠ [] →
      d.total_elevation_gain = some (gainSpecSum (bothElevPairs d))) ∧
    (bothElevPairs d ≠ [] →
      d.total_elevation_loss = some (lossSpecSum (bothElevPairs d))) := by
  have hgain : d.total_elevation_gain =
      (if !(bothElevPairs d).isEmpty then
        some (gainSpecSum (bothElevPairs d)) else none) := by
    unfold Gpx.total_elevation_gain
    rw [show bothElevPairs d = elevOf d.segmentPairs from rfl,
      foldl_gainStep d.segmentPairs 0 false]
    simp only [Bool.false_or, zero_add]
  have hloss : d.total_elevation_loss =
      (if !(bothElevPairs d).isEmpty then
        some (lossSpecSum (bothElevPairs d)) else none) := by
    unfold Gpx.total_elevation_loss
    rw [show bothElevPairs d = elevOf d.segmentPairs from rfl,
      foldl_lossStep d.segmentPairs 0 false]
    simp only [Bool.false_or, zero_add]
  refine ⟨?_, ?_, ?_, ?_⟩
  · rw [hgain]
    by_cases h : bothElevPairs d = []
    · simp [h]
    · have hie : (bothElevPairs d).isEmpty = false := by
        simpa [List.isEmpty_iff] using h
      simp [hie, h]
  · rw [hloss]
    by_cases h : bothElevPairs d = []
    · simp [h]
    · have hie : (bothElevPairs d).isEmpty = false := by
        simpa [List.isEmpty_iff] using h
      simp [hie, h]
  · intro hne
    rw [hgain, if_pos (by simp [List.isEmpty_iff, hne])]
  · intro hne
    rw [hloss, if_pos (by simp [List.isEmpty_iff, hne])]

/-- The §8 scenario document: one track, one segment, two points with
elevations 10.0 and 15.0. -/
def scenarioGpx : Gpx :=
  Gpx.mk
    [Track.mk none
      [TrackSegment.mk
        [Point.mk (407128/10000) (-740060/10000) (some 10) none,
         Point.mk (407589/10000) (-739851/10000) (some 15) none]]]
    [] none

/-- Closed instance of `elevation_gain_loss_characterized` at the §8
scenario document: gain `5.0`, loss `0.0`. -/
theorem elevation_gain_loss_witness :
    scenarioGpx.total_elevation_gain = some (gainSpecSum (bothElevPairs scenarioGpx)) ∧
    scenarioGpx.total_elevation_loss = some (lossSpecSum (bothElevPairs scenarioGpx)) ∧
    gainSpecSum (bothElevPairs scenarioGpx) = 5 ∧
    lossSpecSum (bothElevPairs scenarioGpx) = 0 :=
  ⟨(elevation_gain_loss_characterized scenarioGpx).2.2.1 (by decide),
   (elevation_gain_loss_characterized scenarioGpx).2.2.2 (by decide),
   by simp [scenarioGpx, gainSpecSum, bothElevPairs, Gpx.segmentPairs, elevOf,
     consecPairs]; norm_num,
   by simp [scenarioGpx, lossSpecSum, bothElevPairs, Gpx.segmentPairs, elevOf,
     consecPairs]; norm_num⟩

/-! ## Theorems: C4 (duration) and C5 (average speed) -/

/-- A left fold of `max` is an upper bound of the seed and of every
element, and is the seed or an element. -/
theorem foldl_max_spec (l : List ℤ) (a : ℤ) :
    a ≤ l.foldl max a ∧ (∀ x ∈ l, x ≤ l.foldl max a) ∧
      (l.foldl max a = a ∨ l.foldl max a ∈ l) := by
  induction l generalizing a with
  | nil => simp
  | cons b t ih =>
    obtain ⟨h1, h2, h3⟩ := ih (max a b)
    simp only [List.foldl_cons]
    refine ⟨le_trans (le_max_left a b) h1, ?_, ?_⟩
    · intro x hx
      rcases List.mem_cons.mp hx with rfl | hx
      · exact le_trans (le_max_right a x) h1
      · exact h2 x hx
    · rcases h3 with h3 | h3
      · rcases max_choice a b with hm | hm
        · exact Or.inl (h3.trans hm)
        · exact Or.inr (List.mem_cons.mpr (Or.inl (h3.trans hm)))
      · exact Or.inr (List.mem_cons.mpr (Or.inr h3))

/-- A left fold of `min` is a lower bound of the seed and of every
element, and is the seed or an element. -/
theorem foldl_min_spec (l : List ℤ) (a : ℤ) :
    l.foldl min a ≤ a ∧ (∀ x ∈ l, l.foldl min a ≤ x) ∧
      (l.foldl min a = a ∨ l.foldl min a ∈ l) := by
  induction l generalizing a with
  | nil => simp
  | cons b t ih =>
    obtain ⟨h1, h2, h3⟩ := ih (min a b)
    simp only [List.foldl_cons]
    refine ⟨le_trans h1 (min_le_left a b), ?_, ?_⟩
    · intro x hx
      rcases List.mem_cons.mp hx with rfl | hx
      · exact le_trans h1 (min_le_right a x)
      · exact h2 x hx
    · rcases h3 with h3 | h3
      · rcases min_choice a b with hm | hm
        · exact Or.inl (h3.trans hm)
        · exact Or.inr (List.mem_cons.mpr (Or.inl (h3.trans hm)))
      · exact Or.inr (List.mem_cons.mpr (Or.inr h3))

/-- `total_duration_seconds` is `none` exactly when no point of any track
carries a timestamp. -/
theorem duration_none_iff (d : Gpx) :
    d.total_duration_seconds = none ↔ d.allTimes = [] := by
  unfold Gpx.total_duration_seconds
  cases d.allTimes <;> simp

/-- `total_duration_seconds` yields `s` exactly when `s` is the difference
of a greatest and a least collected timestamp. -/
theorem duration_some_iff (d : Gpx) (s : ℤ) :
    d.total_duration_seconds = some s ↔
      ∃ tmax, tmax ∈ d.allTimes ∧ ∃ tmin, tmin ∈ d.allTimes ∧
        (∀ u ∈ d.allTimes, u ≤ tmax) ∧ (∀ u ∈ d.allTimes, tmin ≤ u) ∧
        s = tmax - tmin := by
  cases hts : d.allTimes with
  | nil =>
    have hdur : d.total_duration_seconds = none := by
      unfold Gpx.total_duration_seconds; rw [hts]
    simp [hdur]
  | cons t rest =>
    have hdur : d.total_duration_seconds =
        some (rest.foldl max t - rest.foldl min t) := by
      unfold Gpx.total_duration_seconds; rw [hts]
    obtain ⟨hM1, hM2, hM3⟩ := foldl_max_spec rest t
    obtain ⟨hm1, hm2, hm3⟩ := foldl_min_spec rest t
    have hMmem : rest.foldl max t ∈ t :: rest := by
      rcases hM3 with h | h
      · rw [h]; exact List.mem_cons_self t rest
      · exact List.mem_cons_of_mem t h
    have hmmem : rest.foldl min t ∈ t :: rest := by
      rcases hm3 with h | h
      · rw [h]; exact List.mem_cons_self t rest
      · exact List.mem_cons_of_mem t h
    rw [hdur]
    constructor
    · intro hs
      have hseq : rest.foldl max t - rest.foldl min t = s := Option.some.inj hs
      refine ⟨rest.foldl max t, hMmem, rest.foldl min t, hmmem, ?_, ?_, hseq.symm⟩
      · intro u hu
        rcases List.mem_cons.mp hu with rfl | hu
        · exact hM1
        · exact hM2 u hu
      · intro u hu
        rcases List.mem_cons.mp hu with rfl | hu
        · exact hm1
        · exact hm2 u hu
    · rintro ⟨tmax, hmaxmem, tmin, hminmem, hub, hlb, rfl⟩
      have heqmax : rest.foldl max t = tmax :=
        le_antisymm (hub _ hMmem) (by
          rcases List.mem_cons.mp hmaxmem with rfl | h
          · exact hM1
          · exact hM2 tmax h)
      have heqmin : rest.foldl min t = tmin :=
        le_antisymm (by
          rcases List.mem_cons.mp hminmem with rfl | h
          · exact hm1
          · exact hm2 tmin h) (hlb _ hmmem)
      rw [heqmax, heqmin]

/-- C4: `total_duration_seconds` collects every timestamp present on any
point of any track (waypoints and metadata excluded), returns `none` when
that collection is empty, otherwise the greatest minus the least
collected timestamp, and the result is invariant under permuting the
collected timestamps (no chronological-sortedness precondition). -/
theorem total_duration_characterized (d : Gpx) :
    (d.allTimes = d.get_all_points.filterMap Point.time) ∧
    (d.total_duration_seconds = none ↔ d.allTimes = []) ∧
    (∀ s : ℤ, d.total_duration_seconds = some s ↔
      ∃ tmax, tmax ∈ d.allTimes ∧ ∃ tmin, tmin ∈ d.allTimes ∧
        (∀ u ∈ d.allTimes, u ≤ tmax) ∧ (∀ u ∈ d.allTimes, tmin ≤ u) ∧
        s = tmax - tmin) ∧
    (∀ d2 : Gpx, d.allTimes.Perm d2.allTimes →
      d.total_duration_seconds = d2.total_duration_seconds) ∧
    (∀ (ws : List Waypoint) (m : Option Metadata),
      (Gpx.mk d.tracks ws m).total_duration_seconds = d.total_duration_seconds) := by
  refine ⟨rfl, duration_none_iff d, fun s => duration_some_iff d s, ?_, fun ws m => rfl⟩
  intro d2 hperm
  cases h2 : d2.total_duration_seconds with
  | none =>
    rw [duration_none_iff] at h2 ⊢
    exact List.Perm.eq_nil (h2 ▸ hperm)
  | some s =>
    rw [duration_some_iff]
    rw [duration_some_iff] at h2
    obtain ⟨tmax, hmaxmem, tmin, hminmem, hub, hlb, rfl⟩ := h2
    refine ⟨tmax, hperm.mem_iff.mpr hmaxmem, tmin, hperm.mem_iff.mpr hminmem,
      ?_, ?_, rfl⟩
    · intro u hu
      exact hub u (hperm.mem_iff.mp hu)
    · intro u hu
      exact hlb u (hperm.mem_iff.mp hu)

/-- A two-point document whose points carry timestamps 600 and 100. -/
def durGpx1 : Gpx :=
  Gpx.mk [Track.mk none [TrackSegment.mk
    [Point.mk 1 2 none (some 600), Point.mk 3 4 none (some 100)]]] [] none

/-- `durGpx1` with its two points in the opposite order. -/
def durGpx2 : Gpx :=
  Gpx.mk [Track.mk none [TrackSegment.mk
    [Point.mk 3 4 none (some 100), Point.mk 1 2 none (some 600)]]] [] none

/-- Closed instance of `total_duration_characterized`: the duration of the
unsorted two-point document equals that of its sorted permutation. -/
theorem total_duration_perm_witness :
    durGpx1.total_duration_seconds = durGpx2.total_duration_seconds ∧
    durGpx1.total_duration_seconds = some 500 :=
  ⟨(total_duration_characterized durGpx1).2.2.2.1 durGpx2 (by decide),
   by decide⟩

/-- C5: `average_speed_kmh` is `none` exactly when `total_duration_seconds`
is `none` or zero (equal timestamps yield "unavailable", never infinity),
and otherwise is `total_distance_km` divided by the duration converted to
hours (`duration_seconds / 3600`). -/
theorem average_speed_characterized (d : Gpx) :
    (d.average_speed_kmh = none ↔
      d.total_duration_seconds = none ∨ d.total_duration_seconds = some 0) ∧
    (∀ s : ℤ, d.total_duration_seconds = some s → s ≠ 0 →
      d.average_speed_kmh = some (d.total_distance_km / ((s : ℝ) / 3600))) := by
  have havg : ∀ s : ℤ, d.total_duration_seconds = some s →
      d.average_speed_kmh =
        (if s = 0 then none
         else some (d.total_distance_km / ((s : ℝ) / 3600))) := by
    intro s h
    simp only [Gpx.average_speed_kmh, h]
  constructor
  · cases hd : d.total_duration_seconds with
    | none =>
      have h : d.average_speed_kmh = none := by
        simp only [Gpx.average_speed_kmh, hd]
      simp [h]
    | some s =>
      rw [havg s hd]
      by_cases hs : s = 0
      · subst hs
        simp
      · simp [hs]
  · intro s hs hs0
    rw [havg s hs, if_neg hs0]

/-- A document whose two points are one hour apart, and one whose two
points carry equal timestamps. -/
def speedGpx : Gpx :=
  Gpx.mk [Track.mk none [TrackSegment.mk
    [Point.mk 1 2 none (some 0), Point.mk 3 4 none (some 3600)]]] [] none

/-- A document whose two points carry the same timestamp. -/
def speedGpx0 : Gpx :=
  Gpx.mk [Track.mk none [TrackSegment.mk
    [Point.mk 1 2 none (some 50), Point.mk 3 4 none (some 50)]]] [] none

/-- Closed instance of `average_speed_characterized`: a one-hour document
has speed `distance / 1`, and an equal-timestamp document has no speed. -/
theorem average_speed_witness :
    speedGpx.average_speed_kmh =
      some (speedGpx.total_distance_km / (((3600 : ℤ) : ℝ) / 3600)) ∧
    speedGpx0.average_speed_kmh = none :=
  ⟨(average_speed_characterized speedGpx).2 3600 (by decide) (by decide),
   (average_speed_characterized speedGpx0).1.mpr (Or.inr (by decide))⟩

/-! ## Decimal text codec

`Gpx::to_xml` prints `f64` coordinates with Rust's `Display` (shortest
decimal text that parses back to the same value) and `try_from_str` reads
them back with `f64::from_str`.  In the rational model this becomes an
exact decimal renderer and a decimal parser; the values representable by
the code are exactly those whose denominator is of the form `2^a * 5^b`. -/

/-- The character of a decimal digit. -/
def decDigitChar : ℕ → Char
  | 0 => '0'
  | 1 => '1'
  | 2 => '2'
  | 3 => '3'
  | 4 => '4'
  | 5 => '5'
  | 6 => '6'
  | 7 => '7'
  | 8 => '8'
  | _ => '9'

/-- The decimal digit of a character, if any. -/
def decCharDigit (c : Char) : Option ℕ :=
  if c = '0' then some 0
  else if c = '1' then some 1
  else if c = '2' then some 2
  else if c = '3' then some 3
  else if c = '4' then some 4
  else if c = '5' then some 5
  else if c = '6' then some 6
  else if c = '7' then some 7
  else if c = '8' then some 8
  else if c = '9' then some 9
  else none

/-- Little-endian decimal digits of a natural number. -/
def natDigitsRev (n : ℕ) : List ℕ :=
  if h : n < 10 then [n] else n % 10 :: natDigitsRev (n / 10)
termination_by n
decreasing_by exact Nat.div_lt_self (by omega) (by omega)

/-- Decimal text of a natural number, most significant digit first. -/
def natChars (n : ℕ) : List Char := (natDigitsRev n).reverse.map decDigitChar

/-- Parse a digit string into a natural number, failing on any non-digit;
`acc` is the value of the digits already consumed. -/
def digitsToNat (acc : ℕ) : List Char → Option ℕ
  | [] => some acc
  | c :: cs =>
    match decCharDigit c with
    | some d => digitsToNat (acc * 10 + d) cs
    | none => none

theorem digitsToNat_nil (acc : ℕ) : digitsToNat acc [] = some acc := rfl

theorem digitsToNat_cons (acc : ℕ) (c : Char) (cs : List Char) :
    digitsToNat acc (c :: cs) =
      match decCharDigit c with
      | some d => digitsToNat (acc * 10 + d) cs
      | none => none := rfl

theorem decCharDigit_decDigitChar (d : ℕ) (h : d < 10) :
    decCharDigit (decDigitChar d) = some d := by
  interval_cases d <;> rfl

theorem decCharDigit_lt (c : Char) (d : ℕ) (h : decCharDigit c = some d) :
    d < 10 := by
  unfold decCharDigit at h
  split_ifs at h <;> simp_all <;> omega

theorem decDigitChar_not_special (d : ℕ) (h : d < 10) :
    decDigitChar d ≠ '.' ∧ decDigitChar d ≠ '-' := by
  interval_cases d <;> exact ⟨by decide, by decide⟩

theorem natDigitsRev_lt (n : ℕ) : ∀ d ∈ natDigitsRev n, d < 10 := by
  induction n using natDigitsRev.induct with
  | case1 n h =>
    rw [natDigitsRev, dif_pos h]
    intro d hd
    simp at hd
    omega
  | case2 n h ih =>
    rw [natDigitsRev, dif_neg h]
    intro d hd
    rcases List.mem_cons.mp hd with rfl | hd
    · omega
    · exact ih d hd

theorem natDigitsRev_ne_nil (n : ℕ) : natDigitsRev n ≠ [] := by
  rw [natDigitsRev]
  split <;> simp

theorem mem_natChars (n : ℕ) (c : Char) (hc : c ∈ natChars n) :
    ∃ d, d < 10 ∧ c = decDigitChar d := by
  unfold natChars at hc
  obtain ⟨d, hd, rfl⟩ := List.mem_map.mp hc
  exact ⟨d, natDigitsRev_lt n d (List.mem_reverse.mp hd), rfl⟩

theorem digitsToNat_append (l1 l2 : List Char) (acc : ℕ) :
    digitsToNat acc (l1 ++ l2) =
      (digitsToNat acc l1).bind (fun m => digitsToNat m l2) := by
  induction l1 generalizing acc with
  | nil => rw [List.nil_append, digitsToNat_nil, Option.some_bind]
  | cons c cs ih =>
    rw [List.cons_append, digitsToNat_cons, digitsToNat_cons]
    cases hc : decCharDigit c with
    | some d =>
      simp only [hc]
      exact ih (acc * 10 + d)
    | none => simp [hc]

theorem digitsToNat_natChars (n acc : ℕ) :
    digitsToNat acc (natChars n) =
      some (acc * 10 ^ (natDigitsRev n).length + n) := by
  induction n using natDigitsRev.induct generalizing acc with
  | case1 n h =>
    unfold natChars
    rw [natDigitsRev, dif_pos h]
    simp only [List.reverse_cons, List.reverse_nil, List.nil_append,
      List.map_cons, List.map_nil]
    rw [digitsToNat_cons]
    simp only [decCharDigit_decDigitChar n h]
    rw [digitsToNat_nil]
    simp
  | case2 n h ih =>
    unfold natChars
    rw [natDigitsRev, dif_neg h]
    simp only [List.reverse_cons, List.map_append, List.map_cons, List.map_nil]
    rw [show (natDigitsRev (n / 10)).reverse.map decDigitChar
        = natChars (n / 10) from rfl]
    rw [digitsToNat_append, ih, Option.some_bind]
    rw [digitsToNat_cons]
    simp only [decCharDigit_decDigitChar (n % 10) (by omega)]
    rw [digitsToNat_nil]
    simp only [List.length_cons, Option.some.injEq]
    have h10 : (10 : ℕ) ^ ((natDigitsRev (n / 10)).length + 1)
        = 10 ^ (natDigitsRev (n / 10)).length * 10 := by
      ring
    rw [h10]
    have := Nat.div_add_mod n 10
    ring_nf
    omega

theorem digitsToNat_shift (l : List Char) (acc : ℕ) :
    digitsToNat acc l =
      (digitsToNat 0 l).map (fun v => acc * 10 ^ l.length + v) := by
  induction l generalizing acc with
  | nil => simp [digitsToNat_nil]
  | cons c cs ih =>
    rw [digitsToNat_cons, digitsToNat_cons]
    cases hc : decCharDigit c with
    | none => simp [hc]
    | some d =>
      simp only [hc]
      rw [ih (acc * 10 + d), ih (0 * 10 + d)]
      cases digitsToNat 0 cs with
      | none => rfl
      | some v =>
        simp only [Option.map_some', Option.some.injEq, List.length_cons]
        ring

theorem digitsToNat_lt (l : List Char) (v : ℕ)
    (h : digitsToNat 0 l = some v) : v < 10 ^ l.length := by
  induction l generalizing v with
  | nil =>
    rw [digitsToNat_nil, Option.some.injEq] at h
    simp [← h]
  | cons c cs ih =>
    rw [digitsToNat_cons] at h
    cases hc : decCharDigit c with
    | none => simp [hc] at h
    | some d =>
      simp only [hc] at h
      rw [digitsToNat_shift] at h
      cases hv : digitsToNat 0 cs with
      | none => rw [hv] at h; exact absurd h (by simp)
      | some v0 =>
        rw [hv] at h
        simp only [Option.map_some', Option.some.injEq] at h
        have hd10 : d < 10 := decCharDigit_lt c d hc
        have hv0 := ih v0 hv
        subst h
        simp only [List.length_cons, pow_succ]
        have hle : (0 * 10 + d) * 10 ^ cs.length ≤ 9 * 10 ^ cs.length :=
          Nat.mul_le_mul_right _ (by omega)
        nlinarith

theorem digitsToNat_isSome (l : List Char)
    (h : ∀ c ∈ l, (decCharDigit c).isSome) (acc : ℕ) :
    (digitsToNat acc l).isSome := by
  induction l generalizing acc with
  | nil => simp [digitsToNat_nil]
  | cons c cs ih =>
    rw [digitsToNat_cons]
    cases hc : decCharDigit c with
    | none =>
      have := h c (List.mem_cons_self c cs)
      rw [hc] at this
      simp at this
    | some d =>
      simp only [hc]
      exact ih (fun x hx => h x (List.mem_cons_of_mem c hx)) (acc * 10 + d)

theorem digitsToNat_replicate_zero (j : ℕ) (l : List Char) :
    digitsToNat 0 (List.replicate j '0' ++ l) = digitsToNat 0 l := by
  induction j with
  | zero => simp
  | succ i ih =>
    rw [List.replicate_succ, List.cons_append, digitsToNat_cons]
    simp only [show decCharDigit '0' = some 0 from rfl]
    simpa using ih

/-- Fuel-bounded multiplicity of `p` in the second argument (the fuel is
the first argument of the auxiliary). -/
def factorCountAux (p : ℕ) : ℕ → ℕ → ℕ
  | 0, _ => 0
  | fuel + 1, n =>
    if 1 < p ∧ 0 < n ∧ n % p = 0 then factorCountAux p fuel (n / p) + 1 else 0

/-- Multiplicity of `p` in `n` (with `n` itself as ample fuel). -/
def factorCount (p n : ℕ) : ℕ := factorCountAux p n n

/-- The number of decimal fraction digits needed for `q`. -/
def decExpOf (q : ℚ) : ℕ := max (factorCount 2 q.den) (factorCount 5 q.den)

/-- `q` has a finite decimal expansion: its reduced denominator consists
only of the prime factors 2 and 5.  These are exactly the rationals an
`f64` can hold, i.e. the values the Rust code can print and re-read. -/
def decimalExact (q : ℚ) : Prop :=
  q.den = 2 ^ factorCount 2 q.den * 5 ^ factorCount 5 q.den

instance (q : ℚ) : Decidable (decimalExact q) := by
  unfold decimalExact
  infer_instance

/-- The integer `q * 10 ^ decExpOf q`, computed from the numerator and
denominator. -/
def ratScaled (q : ℚ) : ℤ := q.num * ((10 ^ decExpOf q) / q.den : ℕ)

/-- The decimal digits of `|ratScaled q|`, zero-padded on the left so a
digit remains before the decimal point. -/
def ratPadded (q : ℚ) : List Char :=
  List.replicate (decExpOf q + 1 - (natChars (ratScaled q).natAbs).length) '0'
    ++ natChars (ratScaled q).natAbs

/-- The unsigned decimal text of `q`: the padded digits with a decimal
point inserted `decExpOf q` places from the right (or no point at all for
integral values, as Rust's `Display` prints `10.0_f64` as `10`). -/
def ratBody (q : ℚ) : List Char :=
  if decExpOf q = 0 then ratPadded q
  else (ratPadded q).take ((ratPadded q).length - decExpOf q)
    ++ '.' :: (ratPadded q).drop ((ratPadded q).length - decExpOf q)

/-- Decimal rendering of a rational, the model of Rust `f64` `Display`. -/
def ratChars (q : ℚ) : List Char :=
  if ratScaled q < 0 then '-' :: ratBody q else ratBody q

/-- Split a character list at the first `'.'`. -/
def splitOnDot : List Char → List Char × Option (List Char)
  | [] => ([], none)
  | c :: cs =>
    if c = '.' then ([], some cs)
    else (c :: (splitOnDot cs).1, (splitOnDot cs).2)

/-- Parse an unsigned decimal string (`digits` or `digits.digits`, either
side of the point possibly empty but not both), the model of the
non-negative part of Rust `f64::from_str`. -/
def ratParseUnsigned (s : List Char) : Option ℚ :=
  match splitOnDot s with
  | (ip, none) =>
    if s.isEmpty then none
    else (digitsToNat 0 ip).map (fun n => (n : ℚ))
  | (ip, some fp) =>
    if ip.isEmpty && fp.isEmpty then none
    else
      match digitsToNat 0 ip, digitsToNat 0 fp with
      | some a, some b => some ((a : ℚ) + (b : ℚ) / (10 : ℚ) ^ fp.length)
      | _, _ => none

/-- Parse a decimal string with an optional leading minus sign, the model
of Rust `f64::from_str` on the texts the code emits. -/
def ratParseChars (s : List Char) : Option ℚ :=
  match s with
  | [] => none
  | c :: cs =>
    if c = '-' then (ratParseUnsigned cs).map (fun q => -q)
    else ratParseUnsigned (c :: cs)

theorem ratParseChars_cons (c : Char) (cs : List Char) :
    ratParseChars (c :: cs) =
      (if c = '-' then (ratParseUnsigned cs).map (fun q => -q)
       else ratParseUnsigned (c :: cs)) := rfl

theorem splitOnDot_no_dot (l : List Char) (h : ∀ c ∈ l, c ≠ '.') :
    splitOnDot l = (l, none) := by
  induction l with
  | nil => rfl
  | cons c cs ih =>
    unfold splitOnDot
    rw [if_neg (h c (List.mem_cons_self c cs))]
    rw [ih (fun x hx => h x (List.mem_cons_of_mem c hx))]

theorem splitOnDot_append_dot (A B : List Char) (h : ∀ c ∈ A, c ≠ '.') :
    splitOnDot (A ++ '.' :: B) = (A, some B) := by
  induction A with
  | nil =>
    rw [List.nil_append]
    unfold splitOnDot
    rw [if_pos rfl]
  | cons c cs ih =>
    rw [List.cons_append]
    unfold splitOnDot
    rw [if_neg (h c (List.mem_cons_self c cs))]
    rw [ih (fun x hx => h x (List.mem_cons_of_mem c hx))]

theorem ratPadded_digits (q : ℚ) :
    ∀ c ∈ ratPadded q, (decCharDigit c).isSome ∧ c ≠ '.' ∧ c ≠ '-' := by
  intro c hc
  unfold ratPadded at hc
  rcases List.mem_append.mp hc with hc | hc
  · have : c = '0' := List.eq_of_mem_replicate hc
    subst this
    exact ⟨by decide, by decide, by decide⟩
  · obtain ⟨d, hd, rfl⟩ := mem_natChars _ c hc
    refine ⟨?_, decDigitChar_not_special d hd⟩
    rw [decCharDigit_decDigitChar d hd]
    rfl

theorem ratPadded_length (q : ℚ) :
    decExpOf q + 1 ≤ (ratPadded q).length := by
  unfold ratPadded
  rw [List.length_append, List.length_replicate]
  omega

theorem ratPadded_val (q : ℚ) :
    digitsToNat 0 (ratPadded q) = some (ratScaled q).natAbs := by
  unfold ratPadded
  rw [digitsToNat_replicate_zero, digitsToNat_natChars]
  simp

theorem ratParseUnsigned_ratBody (q : ℚ) :
    ratParseUnsigned (ratBody q) =
      some (((ratScaled q).natAbs : ℚ) / (10 : ℚ) ^ decExpOf q) := by
  by_cases hk : decExpOf q = 0
  · unfold ratBody
    rw [if_pos hk]
    have hne : (ratPadded q).isEmpty = false := by
      have := ratPadded_length q
      cases hpl : ratPadded q with
      | nil => rw [hpl] at this; simp at this
      | cons a l => rfl
    unfold ratParseUnsigned
    simp only [splitOnDot_no_dot _ (fun c hc => (ratPadded_digits q c hc).2.1),
      hne, Bool.false_eq_true, if_false, ratPadded_val q, Option.map_some']
    rw [hk]
    simp
  · unfold ratBody
    rw [if_neg hk]
    have hlen := ratPadded_length q
    have hAne : (ratPadded q).take ((ratPadded q).length - decExpOf q) ≠ [] := by
      have h1 : ((ratPadded q).take ((ratPadded q).length - decExpOf q)).length
          = (ratPadded q).length - decExpOf q := by
        rw [List.length_take]
        omega
      intro hnil
      rw [hnil] at h1
      simp at h1
      omega
    have hBlen : ((ratPadded q).drop ((ratPadded q).length - decExpOf q)).length
        = decExpOf q := by
      rw [List.length_drop]
      omega
    have hsub : ∀ c ∈ (ratPadded q).take ((ratPadded q).length - decExpOf q),
        c ∈ ratPadded q := fun c hc => List.mem_of_mem_take hc
    have hsubB : ∀ c ∈ (ratPadded q).drop ((ratPadded q).length - decExpOf q),
        c ∈ ratPadded q := fun c hc => List.mem_of_mem_drop hc
    have hipne : ((ratPadded q).take
        ((ratPadded q).length - decExpOf q)).isEmpty = false := by
      cases hA : (ratPadded q).take ((ratPadded q).length - decExpOf q) with
      | nil => exact absurd hA hAne
      | cons a l => rfl
    obtain ⟨a, ha⟩ := Option.isSome_iff_exists.mp
      (digitsToNat_isSome _ (fun c hc => (ratPadded_digits q c (hsub c hc)).1) 0)
    obtain ⟨b, hb⟩ := Option.isSome_iff_exists.mp
      (digitsToNat_isSome _ (fun c hc => (ratPadded_digits q c (hsubB c hc)).1) 0)
    unfold ratParseUnsigned
    simp only [splitOnDot_append_dot _ _
        (fun c hc => (ratPadded_digits q c (hsub c hc)).2.1),
      hipne, Bool.false_and, Bool.false_eq_true, if_false, ha, hb]
    have hval : (ratScaled q).natAbs = a * 10 ^ decExpOf q + b := by
      have hpv := ratPadded_val q
      rw [← List.take_append_drop ((ratPadded q).length - decExpOf q)
        (ratPadded q)] at hpv
      rw [digitsToNat_append, ha, Option.some_bind, digitsToNat_shift, hb,
        hBlen] at hpv
      simp only [Option.map_some', Option.some.injEq] at hpv
      omega
    rw [hBlen, hval]
    have h10 : ((10 : ℚ) ^ decExpOf q) ≠ 0 := by positivity
    rw [Option.some.injEq]
    push_cast
    field_simp

/-- For a decimal-exact rational, the scaled integer really is
`q * 10 ^ decExpOf q`. -/
theorem ratScaled_eq (q : ℚ) (hq : decimalExact q) :
    ((ratScaled q : ℚ)) = q * (10 : ℚ) ^ decExpOf q := by
  have hdvd : q.den ∣ 10 ^ decExpOf q := by
    have h10 : (10 : ℕ) ^ decExpOf q = 2 ^ decExpOf q * 5 ^ decExpOf q := by
      rw [show (10 : ℕ) = 2 * 5 from rfl, mul_pow]
    rw [h10, hq]
    exact mul_dvd_mul
      (pow_dvd_pow 2 (le_max_left _ _))
      (pow_dvd_pow 5 (le_max_right _ _))
  have hL : ((10 ^ decExpOf q) / q.den) * q.den = 10 ^ decExpOf q :=
    Nat.div_mul_cancel hdvd
  have hLq : (((10 ^ decExpOf q) / q.den : ℕ) : ℚ) * (q.den : ℚ)
      = (10 : ℚ) ^ decExpOf q := by
    exact_mod_cast congrArg (fun n : ℕ => (n : ℚ)) hL
  have hden : (q.den : ℚ) ≠ 0 := by
    exact_mod_cast q.den_nz
  have hqden : q * (q.den : ℚ) = (q.num : ℚ) := by
    nth_rewrite 1 [← Rat.num_div_den q]
    field_simp
  unfold ratScaled
  rw [Int.cast_mul, Int.cast_natCast, ← hqden, mul_assoc]
  congr 1
  rw [mul_comm]
  exact hLq

/-- Every character of `ratBody q` is a digit or the decimal point; in
particular none is a minus sign. -/
theorem ratBody_chars (q : ℚ) (c : Char) (hc : c ∈ ratBody q) :
    c = '.' ∨ c ∈ ratPadded q := by
  unfold ratBody at hc
  by_cases hk : decExpOf q = 0
  · rw [if_pos hk] at hc
    exact Or.inr hc
  · rw [if_neg hk] at hc
    rcases List.mem_append.mp hc with hc | hc
    · exact Or.inr (List.mem_of_mem_take hc)
    · rcases List.mem_cons.mp hc with rfl | hc
      · exact Or.inl rfl
      · exact Or.inr (List.mem_of_mem_drop hc)

theorem ratBody_ne_nil (q : ℚ) : ratBody q ≠ [] := by
  unfold ratBody
  have hlen := ratPadded_length q
  split
  · intro h
    rw [h] at hlen
    simp at hlen
  · intro h
    exact absurd (congrArg List.length h) (by
      rw [List.length_append]
      simp)

/-- Round trip of the decimal text codec: parsing the rendered text of a
decimal-exact rational recovers it exactly. -/
theorem ratParseChars_ratChars (q : ℚ) (hq : decimalExact q) :
    ratParseChars (ratChars q) = some q := by
  have hbody := ratParseUnsigned_ratBody q
  have hm := ratScaled_eq q hq
  have h10 : ((10 : ℚ) ^ decExpOf q) ≠ 0 := by positivity
  have habs : (((ratScaled q).natAbs : ℚ)) = |q * (10 : ℚ) ^ decExpOf q| := by
    rw [← hm, Int.cast_natAbs]
    exact Int.cast_abs
  unfold ratChars
  by_cases hneg : ratScaled q < 0
  · rw [if_pos hneg]
    cases hb : ratBody q with
    | nil => exact absurd hb (ratBody_ne_nil q)
    | cons c cs =>
      rw [ratParseChars_cons, if_pos rfl, ← hb, hbody]
      have hqneg : q * (10 : ℚ) ^ decExpOf q < 0 := by
        rw [← hm]
        exact_mod_cast hneg
      rw [Option.map_some', Option.some.injEq]
      rw [habs, abs_of_neg hqneg]
      field_simp
  · rw [if_neg hneg]
    cases hb : ratBody q with
    | nil => exact absurd hb (ratBody_ne_nil q)
    | cons c cs =>
      have hcne : c ≠ '-' := by
        have hcmem : c ∈ ratBody q := by
          rw [hb]
          exact List.mem_cons_self c cs
        rcases ratBody_chars q c hcmem with rfl | hcp
        · decide
        · exact (ratPadded_digits q c hcp).2.2
      rw [ratParseChars_cons, if_neg hcne, ← hb, hbody]
      have hqpos : 0 ≤ q * (10 : ℚ) ^ decExpOf q := by
        rw [← hm]
        exact_mod_cast not_lt.mp hneg
      rw [Option.some.injEq, habs, abs_of_nonneg hqpos]
      field_simp

/-! ## Timestamp text codec

`chrono` serializes a `DateTime<Utc>` as an RFC 3339 text and parses it
back to the same instant; in the integer-seconds model this external
codec is modelled by the signed decimal rendering of the second count,
keeping its one essential property: parsing a rendered timestamp yields
the original instant. -/

/-- Signed decimal rendering of an integer. -/
def intChars (z : ℤ) : List Char :=
  if z < 0 then '-' :: natChars z.natAbs else natChars z.natAbs

/-- Parse a signed decimal integer. -/
def intParseChars (s : List Char) : Option ℤ :=
  match s with
  | [] => none
  | c :: cs =>
    if c = '-' then
      (if cs.isEmpty then none else (digitsToNat 0 cs).map (fun n => -(n : ℤ)))
    else (digitsToNat 0 (c :: cs)).map (fun n => (n : ℤ))

theorem intParseChars_cons (c : Char) (cs : List Char) :
    intParseChars (c :: cs) =
      (if c = '-' then
        (if cs.isEmpty then none else (digitsToNat 0 cs).map (fun n => -(n : ℤ)))
       else (digitsToNat 0 (c :: cs)).map (fun n => (n : ℤ))) := rfl

theorem natChars_ne_nil (n : ℕ) : natChars n ≠ [] := by
  unfold natChars
  intro h
  have := natDigitsRev_ne_nil n
  rcases List.map_eq_nil_iff.mp h with h2
  rcases List.reverse_eq_nil_iff.mp h2 with h3
  exact this h3

theorem digitsToNat_natChars_zero (n : ℕ) :
    digitsToNat 0 (natChars n) = some n := by
  rw [digitsToNat_natChars]
  simp

/-- Round trip of the timestamp codec, for every instant. -/
theorem intParseChars_intChars (z : ℤ) : intParseChars (intChars z) = some z := by
  unfold intChars
  by_cases hz : z < 0
  · rw [if_pos hz]
    rw [intParseChars_cons, if_pos rfl]
    have hne : (natChars z.natAbs).isEmpty = false := by
      cases hnc : natChars z.natAbs with
      | nil => exact absurd hnc (natChars_ne_nil _)
      | cons a l => rfl
    rw [hne]
    simp only [Bool.false_eq_true, if_false, digitsToNat_natChars_zero]
    have habs : (z.natAbs : ℤ) = -z := Int.ofNat_natAbs_of_nonpos (le_of_lt hz)
    simp [habs]
  · rw [if_neg hz]
    cases hnc : natChars z.natAbs with
    | nil => exact absurd hnc (natChars_ne_nil _)
    | cons c cs =>
      have hcne : c ≠ '-' := by
        have hcmem : c ∈ natChars z.natAbs := by
          rw [hnc]
          exact List.mem_cons_self c cs
        obtain ⟨d, hd, rfl⟩ := mem_natChars _ c hcmem
        exact (decDigitChar_not_special d hd).2
      rw [intParseChars_cons, if_neg hcne, ← hnc, digitsToNat_natChars_zero]
      have habs : (z.natAbs : ℤ) = z := Int.natAbs_of_nonneg (not_lt.mp hz)
      simp [habs]

/-! ## XML document trees

`Gpx::to_xml` serializes through `quick_xml::se::to_string` and
`Gpx::try_from_str` parses through `quick_xml::de::from_str`; both are
external collaborators of the core (spec §1).  The wire text is modelled
at the level of its document tree: an element with attributes and
children, or a text node.  The serde field attributes in the source
(`rename`, `@`-attributes vs. children, `skip_serializing_if`, `default`)
determine the tree shape. -/

/-- An XML document tree. -/
inductive XmlNode where
  | elem (name : List Char) (attrs : List (List Char × List Char))
      (children : List XmlNode)
  | text (s : List Char)

/-- The double-quote character. -/
def quoteChar : Char := Char.ofNat 34

/-- The apostrophe character. -/
def aposChar : Char := Char.ofNat 39

/-- XML escaping of text and attribute payloads, as `quick_xml` performs
on write. -/
def escChars (s : List Char) : List Char :=
  s.foldr (fun c acc =>
    if c = '&' then "&amp;".toList ++ acc
    else if c = '<' then "&lt;".toList ++ acc
    else if c = '>' then "&gt;".toList ++ acc
    else if c = quoteChar then "&quot;".toList ++ acc
    else if c = aposChar then "&apos;".toList ++ acc
    else c :: acc) []

/-- Render an attribute list as ` name="value"` runs. -/
def renderAttrs (attrs : List (List Char × List Char)) : List Char :=
  attrs.foldr (fun a acc =>
    ' ' :: (a.1 ++ '=' :: quoteChar :: (escChars a.2 ++ quoteChar :: acc))) []

/-- Render a document tree as XML text: childless elements self-close,
as `quick_xml` writes them. -/
def renderXmlNode : XmlNode → List Char
  | .text s => escChars s
  | .elem n attrs [] => '<' :: (n ++ renderAttrs attrs ++ '/' :: '>' :: [])
  | .elem n attrs (c0 :: crest) =>
    '<' :: (n ++ renderAttrs attrs ++ '>' ::
      (((c0 :: crest).attach.map (fun c => renderXmlNode c.1)).flatten
        ++ '<' :: '/' :: (n ++ ['>'])))
decreasing_by
  have := List.sizeOf_lt_of_mem c.2
  simp only [XmlNode.elem.sizeOf_spec]
  omega

/-- `[f x]` for a present optional field, nothing for an absent one: the
encoding of `skip_serializing_if = "Option::is_none"`. -/
def optNode {α : Type} (o : Option α) (f : α → XmlNode) : List XmlNode :=
  match o with
  | none => []
  | some x => [f x]

/-- The serde serialization of a `Point` as a `trkpt`-shaped element:
`lat`/`lon` attributes, optional `ele` and `time` children. -/
def Point.toXml (p : Point) : XmlNode :=
  .elem "trkpt".toList
    [("lat".toList, ratChars p.lat), ("lon".toList, ratChars p.lon)]
    (optNode p.elevation (fun e => .elem "ele".toList [] [.text (ratChars e)])
      ++ optNode p.time (fun t => .elem "time".toList [] [.text (intChars t)]))

/-- The serde serialization of a `TrackSegment`: a `trkseg` element
holding the points. -/
def TrackSegment.toXml (s : TrackSegment) : XmlNode :=
  .elem "trkseg".toList [] (s.points.map Point.toXml)

/-- The serde serialization of a `Track`: optional `name` child, then the
segments. -/
def Track.toXml (t : Track) : XmlNode :=
  .elem "trk".toList []
    (optNode t.name (fun nm => .elem "name".toList [] [.text nm])
      ++ t.segments.map TrackSegment.toXml)

/-- The serde serialization of a `Waypoint`: `lat`/`lon` attributes,
optional `name`, `ele`, `time` children. -/
def Waypoint.toXml (w : Waypoint) : XmlNode :=
  .elem "wpt".toList
    [("lat".toList, ratChars w.lat), ("lon".toList, ratChars w.lon)]
    (optNode w.name (fun nm => .elem "name".toList [] [.text nm])
      ++ optNode w.elevation (fun e => .elem "ele".toList [] [.text (ratChars e)])
      ++ optNode w.time (fun t => .elem "time".toList [] [.text (intChars t)]))

/-- The serde serialization of `Metadata`: optional raw `time` child. -/
def Metadata.toXml (m : Metadata) : XmlNode :=
  .elem "metadata".toList []
    (optNode m.time (fun s => .elem "time".toList [] [.text s]))

/-- The serde serialization of `GpxRoot`: the `gpx` root element with its
`version` and `creator` attributes and the metadata, track and waypoint
children in field order. -/
def GpxRoot.toXml (g : GpxRoot) : XmlNode :=
  .elem "gpx".toList
    [("version".toList, g.version), ("creator".toList, g.creator)]
    (optNode g.metadata Metadata.toXml
      ++ g.tracks.map Track.toXml
      ++ g.waypoints.map Waypoint.toXml)

/-- The `GpxRoot` that `Gpx::to_xml` builds: default version and creator
around the document's own data. -/
def Gpx.toGpxRoot (d : Gpx) : GpxRoot :=
  GpxRoot.mk default_version default_creator d.metadata d.tracks d.waypoints

/-- The document tree of `Gpx::to_xml`. -/
def Gpx.to_xml_tree (d : Gpx) : XmlNode := d.toGpxRoot.toXml

/-- `Gpx::to_xml` (src/src/gpx/parser.rs): the XML declaration, a
newline, then the serialized root. -/
def Gpx.to_xml (d : Gpx) : String :=
  "<?xml version=\"1.0\" encoding=\"UTF-8\"?>"
    ++ ("\n" ++ String.mk (renderXmlNode d.to_xml_tree))

/-! ## Decoding (the serde deserialization shape of `GpxRoot`) -/

/-- Whether a node is an element with the given name. -/
def isElemNamed (nm : List Char) (x : XmlNode) : Bool :=
  match x with
  | .elem n _ _ => n == nm
  | .text _ => false

/-- All child elements with the given name, in order (serde collects a
`Vec` field from every matching child and ignores unknown children). -/
def childElems (nm : List Char) (cs : List XmlNode) : List XmlNode :=
  cs.filter (isElemNamed nm)

/-- The first child element with the given name (serde fills an optional
field from the matching child). -/
def firstChild (nm : List Char) (cs : List XmlNode) : Option XmlNode :=
  cs.find? (isElemNamed nm)

/-- Concatenated text content of a child list. -/
def innerText (cs : List XmlNode) : List Char :=
  cs.foldr (fun c acc =>
    match c with
    | .text s => s ++ acc
    | .elem _ _ _ => acc) []

/-- Text content of a node. -/
def nodeText (x : XmlNode) : List Char :=
  match x with
  | .text s => s
  | .elem _ _ cs => innerText cs

/-- The value of the named attribute, if present. -/
def attrOf (nm : List Char) (attrs : List (List Char × List Char)) :
    Option (List Char) :=
  (attrs.find? (fun a => a.1 == nm)).map (fun a => a.2)

/-- Read a required numeric attribute (serde fails on a missing or
unparsable `lat`/`lon`). -/
def getRatAttr (nm : List Char) (attrs : List (List Char × List Char)) :
    Except (List Char) ℚ :=
  match attrOf nm attrs with
  | none => .error ("missing attribute ".toList ++ nm)
  | some v =>
    match ratParseChars v with
    | none => .error ("invalid number in attribute ".toList ++ nm)
    | some q => .ok q

/-- Read an optional numeric child element. -/
def getOptRatChild (nm : List Char) (cs : List XmlNode) :
    Except (List Char) (Option ℚ) :=
  match firstChild nm cs with
  | none => .ok none
  | some x =>
    match ratParseChars (nodeText x) with
    | none => .error ("invalid number in element ".toList ++ nm)
    | some q => .ok (some q)

/-- Read an optional timestamp child element. -/
def getOptIntChild (nm : List Char) (cs : List XmlNode) :
    Except (List Char) (Option ℤ) :=
  match firstChild nm cs with
  | none => .ok none
  | some x =>
    match intParseChars (nodeText x) with
    | none => .error ("invalid timestamp in element ".toList ++ nm)
    | some t => .ok (some t)

/-- Read an optional raw-text child element. -/
def getOptTextChild (nm : List Char) (cs : List XmlNode) :
    Option (List Char) :=
  (firstChild nm cs).map nodeText

/-- Deserialize a `trkpt`. -/
def decodePoint (x : XmlNode) : Except (List Char) Point :=
  match x with
  | .text _ => .error "expected a trkpt element".toList
  | .elem _ attrs cs => do
    let lat ← getRatAttr "lat".toList attrs
    let lon ← getRatAttr "lon".toList attrs
    let ele ← getOptRatChild "ele".toList cs
    let tm ← getOptIntChild "time".toList cs
    .ok (Point.mk lat lon ele tm)

/-- Deserialize a `trkseg`. -/
def decodeSegment (x : XmlNode) : Except (List Char) TrackSegment :=
  match x with
  | .text _ => .error "expected a trkseg element".toList
  | .elem _ _ cs => do
    let ps ← (childElems "trkpt".toList cs).mapM decodePoint
    .ok (TrackSegment.mk ps)

/-- Deserialize a `trk`. -/
def decodeTrack (x : XmlNode) : Except (List Char) Track :=
  match x with
  | .text _ => .error "expected a trk element".toList
  | .elem _ _ cs => do
    let segs ← (childElems "trkseg".toList cs).mapM decodeSegment
    .ok (Track.mk (getOptTextChild "name".toList cs) segs)

/-- Deserialize a `wpt`. -/
def decodeWaypoint (x : XmlNode) : Except (List Char) Waypoint :=
  match x with
  | .text _ => .error "expected a wpt element".toList
  | .elem _ attrs cs => do
    let lat ← getRatAttr "lat".toList attrs
    let lon ← getRatAttr "lon".toList attrs
    let ele ← getOptRatChild "ele".toList cs
    let tm ← getOptIntChild "time".toList cs
    .ok (Waypoint.mk lat lon (getOptTextChild "name".toList cs) ele tm)

/-- Deserialize a `metadata` element (its single field is optional, so
this cannot fail). -/
def decodeMetadata (x : XmlNode) : Metadata :=
  match x with
  | .text _ => Metadata.mk none
  | .elem _ _ cs => Metadata.mk (getOptTextChild "time".toList cs)

/-- Deserialize the `gpx` root, the model of
`from_str::<GpxRoot>`: the root element must be named `gpx`; `version`
and `creator` default when absent; `trk` and `wpt` children are
collected in order; unknown children are ignored. -/
def decodeRoot (x : XmlNode) : Except (List Char) GpxRoot :=
  match x with
  | .text _ => .error "expected a gpx document".toList
  | .elem n attrs cs =>
    if n = "gpx".toList then do
      let trks ← (childElems "trk".toList cs).mapM decodeTrack
      let wpts ← (childElems "wpt".toList cs).mapM decodeWaypoint
      .ok (GpxRoot.mk
        ((attrOf "version".toList attrs).getD default_version)
        ((attrOf "creator".toList attrs).getD default_creator)
        ((firstChild "metadata".toList cs).map decodeMetadata)
        trks wpts)
    else .error "expected a gpx root element".toList

/-- `Gpx::try_from_str` (src/src/gpx/parser.rs), at the document-tree
level: deserialize a `GpxRoot` and keep its tracks, waypoints and
metadata. -/
def Gpx.try_from_xml (x : XmlNode) : Except (List Char) Gpx :=
  match decodeRoot x with
  | .error e => .error e
  | .ok r => .ok (Gpx.mk r.tracks r.waypoints r.metadata)

/-! ## Round trip: decoding an encoded document -/

theorem exceptBind_ok {ε α β : Type} (a : α) (f : α → Except ε β) :
    ((Except.ok a : Except ε α) >>= f) = f a := rfl

theorem mapM_map_ok {α : Type} (dec : XmlNode → Except (List Char) α)
    (enc : α → XmlNode) (l : List α) (h : ∀ y ∈ l, dec (enc y) = .ok y) :
    (l.map enc).mapM dec = Except.ok l := by
  induction l with
  | nil => rfl
  | cons a t ih =>
    rw [List.map_cons, List.mapM_cons, h a (List.mem_cons_self a t),
      exceptBind_ok, ih (fun y hy => h y (List.mem_cons_of_mem a hy)),
      exceptBind_ok]
    rfl

theorem getRatAttr_found (nm : List Char) (attrs : List (List Char × List Char))
    (v : List Char) (q : ℚ) (h : attrOf nm attrs = some v)
    (hp : ratParseChars v = some q) :
    getRatAttr nm attrs = .ok q := by
  simp only [getRatAttr, h, hp]

theorem getOptRatChild_found (nm : List Char) (cs : List XmlNode) (v : List Char)
    (q : ℚ) (h : firstChild nm cs = some (XmlNode.elem nm [] [XmlNode.text v]))
    (hp : ratParseChars v = some q) :
    getOptRatChild nm cs = .ok (some q) := by
  simp only [getOptRatChild, h, nodeText, innerText, List.foldr,
    List.append_nil, hp]

theorem getOptRatChild_none (nm : List Char) (cs : List XmlNode)
    (h : firstChild nm cs = none) :
    getOptRatChild nm cs = .ok none := by
  simp only [getOptRatChild, h]

theorem getOptIntChild_found (nm : List Char) (cs : List XmlNode) (v : List Char)
    (t : ℤ) (h : firstChild nm cs = some (XmlNode.elem nm [] [XmlNode.text v]))
    (hp : intParseChars v = some t) :
    getOptIntChild nm cs = .ok (some t) := by
  simp only [getOptIntChild, h, nodeText, innerText, List.foldr,
    List.append_nil, hp]

theorem getOptIntChild_none (nm : List Char) (cs : List XmlNode)
    (h : firstChild nm cs = none) :
    getOptIntChild nm cs = .ok none := by
  simp only [getOptIntChild, h]

theorem getOptTextChild_found (nm : List Char) (cs : List XmlNode) (v : List Char)
    (h : firstChild nm cs = some (XmlNode.elem nm [] [XmlNode.text v])) :
    getOptTextChild nm cs = some v := by
  simp only [getOptTextChild, h, Option.map_some', nodeText, innerText,
    List.foldr, List.append_nil]

theorem getOptTextChild_none (nm : List Char) (cs : List XmlNode)
    (h : firstChild nm cs = none) :
    getOptTextChild nm cs = none := by
  simp only [getOptTextChild, h, Option.map_none']

theorem firstChild_map_ne {α : Type} (nm : List Char) (enc : α → XmlNode)
    (l : List α) (h : ∀ y, isElemNamed nm (enc y) = false) :
    firstChild nm (l.map enc) = none := by
  rw [firstChild, List.find?_eq_none]
  intro x hx
  obtain ⟨y, _, rfl⟩ := List.mem_map.mp hx
  simp [h y]

theorem childElems_map_eq {α : Type} (nm : List Char) (enc : α → XmlNode)
    (l : List α) (h : ∀ y, isElemNamed nm (enc y) = true) :
    childElems nm (l.map enc) = l.map enc := by
  rw [childElems, List.filter_eq_self]
  intro a ha
  obtain ⟨y, _, rfl⟩ := List.mem_map.mp ha
  exact h y

theorem childElems_map_ne {α : Type} (nm : List Char) (enc : α → XmlNode)
    (l : List α) (h : ∀ y, isElemNamed nm (enc y) = false) :
    childElems nm (l.map enc) = [] := by
  rw [childElems, List.filter_eq_nil_iff]
  intro a ha
  obtain ⟨y, _, rfl⟩ := List.mem_map.mp ha
  simp [h y]

/-- Elevation field precondition: a present elevation is decimal-exact. -/
def elevDecOK : Option ℚ → Prop
  | none => True
  | some e => decimalExact e

instance : (o : Option ℚ) → Decidable (elevDecOK o)
  | none => Decidable.isTrue trivial
  | some e => inferInstanceAs (Decidable (decimalExact e))

theorem decodePoint_toXml (p : Point) (h1 : decimalExact p.lat)
    (h2 : decimalExact p.lon) (h3 : elevDecOK p.elevation) :
    decodePoint p.toXml = .ok p := by
  obtain ⟨lat, lon, ele, tm⟩ := p
  simp only at h1 h2 h3
  cases ele with
  | none =>
    cases tm with
    | none =>
      simp only [Point.toXml, optNode, List.nil_append, decodePoint]
      rw [getRatAttr_found _ _ _ _ (by rfl) (ratParseChars_ratChars _ h1), exceptBind_ok,
        getRatAttr_found _ _ _ _ (by rfl) (ratParseChars_ratChars _ h2), exceptBind_ok,
        getOptRatChild_none _ _ (by rfl), exceptBind_ok,
        getOptIntChild_none _ _ (by rfl), exceptBind_ok]
    | some t =>
      simp only [Point.toXml, optNode, List.nil_append, decodePoint]
      rw [getRatAttr_found _ _ _ _ (by rfl) (ratParseChars_ratChars _ h1), exceptBind_ok,
        getRatAttr_found _ _ _ _ (by rfl) (ratParseChars_ratChars _ h2), exceptBind_ok,
        getOptRatChild_none _ _ (by rfl), exceptBind_ok,
        getOptIntChild_found _ _ _ _ (by rfl) (intParseChars_intChars t), exceptBind_ok]
  | some e =>
    have he : decimalExact e := h3
    cases tm with
    | none =>
      simp only [Point.toXml, optNode, List.singleton_append, List.append_nil,
        decodePoint]
      rw [getRatAttr_found _ _ _ _ (by rfl) (ratParseChars_ratChars _ h1), exceptBind_ok,
        getRatAttr_found _ _ _ _ (by rfl) (ratParseChars_ratChars _ h2), exceptBind_ok,
        getOptRatChild_found _ _ _ _ (by rfl) (ratParseChars_ratChars _ he), exceptBind_ok,
        getOptIntChild_none _ _ (by rfl), exceptBind_ok]
    | some t =>
      simp only [Point.toXml, optNode, List.singleton_append, decodePoint]
      rw [getRatAttr_found _ _ _ _ (by rfl) (ratParseChars_ratChars _ h1), exceptBind_ok,
        getRatAttr_found _ _ _ _ (by rfl) (ratParseChars_ratChars _ h2), exceptBind_ok,
        getOptRatChild_found _ _ _ _ (by rfl) (ratParseChars_ratChars _ he), exceptBind_ok,
        getOptIntChild_found _ _ _ _ (by rfl) (intParseChars_intChars t), exceptBind_ok]

theorem decodeSegment_toXml (s : TrackSegment)
    (h : ∀ p ∈ s.points, decodePoint p.toXml = .ok p) :
    decodeSegment s.toXml = .ok s := by
  obtain ⟨ps⟩ := s
  simp only [TrackSegment.toXml, decodeSegment]
  rw [childElems_map_eq _ _ _ (fun p => by rfl), mapM_map_ok _ _ _ h, exceptBind_ok]

theorem decodeTrack_toXml (t : Track)
    (h : ∀ s ∈ t.segments, decodeSegment s.toXml = .ok s) :
    decodeTrack t.toXml = .ok t := by
  obtain ⟨nm, segs⟩ := t
  cases nm with
  | none =>
    simp only [Track.toXml, optNode, List.nil_append, decodeTrack]
    rw [childElems_map_eq _ _ _ (fun s => by rfl), mapM_map_ok _ _ _ h, exceptBind_ok,
      getOptTextChild_none _ _ (firstChild_map_ne _ _ _ (fun s => by rfl))]
  | some nm =>
    simp only [Track.toXml, optNode, List.singleton_append, decodeTrack]
    rw [show childElems "trkseg".toList
        (XmlNode.elem "name".toList [] [XmlNode.text nm]
          :: segs.map TrackSegment.toXml)
        = childElems "trkseg".toList (segs.map TrackSegment.toXml) from rfl]
    rw [childElems_map_eq _ _ _ (fun s => by rfl), mapM_map_ok _ _ _ h, exceptBind_ok,
      getOptTextChild_found _ _ _ (by rfl)]

theorem decodeWaypoint_toXml (w : Waypoint) (h1 : decimalExact w.lat)
    (h2 : decimalExact w.lon) (h3 : elevDecOK w.elevation) :
    decodeWaypoint w.toXml = .ok w := by
  obtain ⟨lat, lon, nm, ele, tm⟩ := w
  simp only at h1 h2 h3
  have hlat := ratParseChars_ratChars _ h1
  have hlon := ratParseChars_ratChars _ h2
  cases nm with
  | none =>
    cases ele with
    | none =>
      cases tm with
      | none =>
        simp only [Waypoint.toXml, optNode, List.nil_append, decodeWaypoint]
        rw [getRatAttr_found _ _ _ _ (by rfl) hlat, exceptBind_ok,
          getRatAttr_found _ _ _ _ (by rfl) hlon, exceptBind_ok,
          getOptRatChild_none _ _ (by rfl), exceptBind_ok,
          getOptIntChild_none _ _ (by rfl), exceptBind_ok,
          getOptTextChild_none _ _ (by rfl)]
      | some t =>
        simp only [Waypoint.toXml, optNode, List.nil_append, decodeWaypoint]
        rw [getRatAttr_found _ _ _ _ (by rfl) hlat, exceptBind_ok,
          getRatAttr_found _ _ _ _ (by rfl) hlon, exceptBind_ok,
          getOptRatChild_none _ _ (by rfl), exceptBind_ok,
          getOptIntChild_found _ _ _ _ (by rfl) (intParseChars_intChars t), exceptBind_ok,
          getOptTextChild_none _ _ (by rfl)]
    | some e =>
      have he : decimalExact e := h3
      cases tm with
      | none =>
        simp only [Waypoint.toXml, optNode, List.nil_append,
          List.singleton_append, List.append_nil, decodeWaypoint]
        rw [getRatAttr_found _ _ _ _ (by rfl) hlat, exceptBind_ok,
          getRatAttr_found _ _ _ _ (by rfl) hlon, exceptBind_ok,
          getOptRatChild_found _ _ _ _ (by rfl) (ratParseChars_ratChars _ he), exceptBind_ok,
          getOptIntChild_none _ _ (by rfl), exceptBind_ok,
          getOptTextChild_none _ _ (by rfl)]
      | some t =>
        simp only [Waypoint.toXml, optNode, List.nil_append,
          List.singleton_append, decodeWaypoint]
        rw [getRatAttr_found _ _ _ _ (by rfl) hlat, exceptBind_ok,
          getRatAttr_found _ _ _ _ (by rfl) hlon, exceptBind_ok,
          getOptRatChild_found _ _ _ _ (by rfl) (ratParseChars_ratChars _ he), exceptBind_ok,
          getOptIntChild_found _ _ _ _ (by rfl) (intParseChars_intChars t), exceptBind_ok,
          getOptTextChild_none _ _ (by rfl)]
  | some nmv =>
    cases ele with
    | none =>
      cases tm with
      | none =>
        simp only [Waypoint.toXml, optNode, List.singleton_append,
          List.append_nil, decodeWaypoint]
        rw [getRatAttr_found _ _ _ _ (by rfl) hlat, exceptBind_ok,
          getRatAttr_found _ _ _ _ (by rfl) hlon, exceptBind_ok,
          getOptRatChild_none _ _ (by rfl), exceptBind_ok,
          getOptIntChild_none _ _ (by rfl), exceptBind_ok,
          getOptTextChild_found _ _ _ (by rfl)]
      | some t =>
        simp only [Waypoint.toXml, optNode, List.singleton_append,
          List.nil_append, decodeWaypoint]
        rw [getRatAttr_found _ _ _ _ (by rfl) hlat, exceptBind_ok,
          getRatAttr_found _ _ _ _ (by rfl) hlon, exceptBind_ok,
          getOptRatChild_none _ _ (by rfl), exceptBind_ok,
          getOptIntChild_found _ _ _ _ (by rfl) (intParseChars_intChars t), exceptBind_ok,
          getOptTextChild_found _ _ _ (by rfl)]
    | some e =>
      have he : decimalExact e := h3
      cases tm with
      | none =>
        simp only [Waypoint.toXml, optNode, List.singleton_append,
          List.nil_append, List.append_nil, decodeWaypoint]
        rw [getRatAttr_found _ _ _ _ (by rfl) hlat, exceptBind_ok,
          getRatAttr_found _ _ _ _ (by rfl) hlon, exceptBind_ok,
          getOptRatChild_found _ _ _ _ (by rfl) (ratParseChars_ratChars _ he), exceptBind_ok,
          getOptIntChild_none _ _ (by rfl), exceptBind_ok,
          getOptTextChild_found _ _ _ (by rfl)]
      | some t =>
        simp only [Waypoint.toXml, optNode, List.singleton_append, decodeWaypoint]
        rw [getRatAttr_found _ _ _ _ (by rfl) hlat, exceptBind_ok,
          getRatAttr_found _ _ _ _ (by rfl) hlon, exceptBind_ok,
          getOptRatChild_found _ _ _ _ (by rfl) (ratParseChars_ratChars _ he), exceptBind_ok,
          getOptIntChild_found _ _ _ _ (by rfl) (intParseChars_intChars t), exceptBind_ok,
          getOptTextChild_found _ _ _ (by rfl)]

theorem decodeMetadata_toXml (m : Metadata) : decodeMetadata m.toXml = m := by
  obtain ⟨tm⟩ := m
  cases tm with
  | none => rfl
  | some s =>
    simp only [Metadata.toXml, optNode, decodeMetadata]
    rw [getOptTextChild_found _ _ _ (by rfl)]

theorem decodeRoot_toXml (g : GpxRoot)
    (htr : ∀ t ∈ g.tracks, decodeTrack t.toXml = .ok t)
    (hwp : ∀ w ∈ g.waypoints, decodeWaypoint w.toXml = .ok w) :
    decodeRoot g.toXml = .ok g := by
  obtain ⟨ver, cre, md, trks, wpts⟩ := g
  have htrkeep : childElems "trk".toList (trks.map Track.toXml)
      = trks.map Track.toXml := childElems_map_eq _ _ _ (fun t => by rfl)
  have htrwpt : childElems "trk".toList (wpts.map Waypoint.toXml) = [] :=
    childElems_map_ne _ _ _ (fun w => by rfl)
  have hwptkeep : childElems "wpt".toList (wpts.map Waypoint.toXml)
      = wpts.map Waypoint.toXml := childElems_map_eq _ _ _ (fun w => by rfl)
  have hwpttrk : childElems "wpt".toList (trks.map Track.toXml) = [] :=
    childElems_map_ne _ _ _ (fun t => by rfl)
  have hmdtrk : firstChild "metadata".toList (trks.map Track.toXml) = none :=
    firstChild_map_ne _ _ _ (fun t => by rfl)
  have hmdwpt : firstChild "metadata".toList (wpts.map Waypoint.toXml) = none :=
    firstChild_map_ne _ _ _ (fun w => by rfl)
  have hctrk : childElems "trk".toList
      (trks.map Track.toXml ++ wpts.map Waypoint.toXml)
      = trks.map Track.toXml := by
    simp only [childElems, List.filter_append] at htrkeep htrwpt ⊢
    rw [htrkeep, htrwpt, List.append_nil]
  have hcwpt : childElems "wpt".toList
      (trks.map Track.toXml ++ wpts.map Waypoint.toXml)
      = wpts.map Waypoint.toXml := by
    simp only [childElems, List.filter_append] at hwptkeep hwpttrk ⊢
    rw [hwptkeep, hwpttrk, List.nil_append]
  have hcmd : firstChild "metadata".toList
      (trks.map Track.toXml ++ wpts.map Waypoint.toXml) = none := by
    simp only [firstChild, List.find?_append] at hmdtrk hmdwpt ⊢
    rw [hmdtrk, hmdwpt]
    rfl
  simp only [GpxRoot.toXml, decodeRoot]
  rw [if_pos trivial]
  cases md with
  | none =>
    simp only [optNode, List.nil_append]
    rw [hctrk, mapM_map_ok _ _ _ htr, exceptBind_ok,
      hcwpt, mapM_map_ok _ _ _ hwp, exceptBind_ok, hcmd]
    rfl
  | some m =>
    simp only [optNode, List.singleton_append, List.cons_append, List.nil_append]
    rw [show childElems "trk".toList
        (Metadata.toXml m :: (trks.map Track.toXml ++ wpts.map Waypoint.toXml))
        = childElems "trk".toList
          (trks.map Track.toXml ++ wpts.map Waypoint.toXml) from rfl]
    rw [hctrk, mapM_map_ok _ _ _ htr, exceptBind_ok]
    rw [show childElems "wpt".toList
        (Metadata.toXml m :: (trks.map Track.toXml ++ wpts.map Waypoint.toXml))
        = childElems "wpt".toList
          (trks.map Track.toXml ++ wpts.map Waypoint.toXml) from rfl]
    rw [hcwpt, mapM_map_ok _ _ _ hwp, exceptBind_ok]
    rw [show firstChild "metadata".toList
        (Metadata.toXml m :: (trks.map Track.toXml ++ wpts.map Waypoint.toXml))
        = some (Metadata.toXml m) from rfl]
    rw [Option.map_some', decodeMetadata_toXml]
    rfl

/-- The precondition of the round trip: every coordinate and elevation in
the document is decimal-exact, i.e. representable as the finite decimal
text Rust prints for an `f64`. -/
def GoodGpx (d : Gpx) : Prop :=
  (∀ t ∈ d.tracks, ∀ s ∈ t.segments, ∀ p ∈ s.points,
    decimalExact p.lat ∧ decimalExact p.lon ∧ elevDecOK p.elevation) ∧
  (∀ w ∈ d.waypoints,
    decimalExact w.lat ∧ decimalExact w.lon ∧ elevDecOK w.elevation)

instance (d : Gpx) : Decidable (GoodGpx d) := by
  unfold GoodGpx
  infer_instance

/-- Decoding the encoded tree of a decimal-exact document succeeds and
recovers the document exactly. -/
theorem try_from_xml_to_xml_tree (d : Gpx) (h : GoodGpx d) :
    Gpx.try_from_xml d.to_xml_tree = .ok d := by
  obtain ⟨htr, hwp⟩ := h
  have hroot : decodeRoot d.to_xml_tree
      = .ok (GpxRoot.mk default_version default_creator d.metadata
          d.tracks d.waypoints) := by
    simp only [Gpx.to_xml_tree, Gpx.toGpxRoot]
    apply decodeRoot_toXml
    · intro t ht
      apply decodeTrack_toXml
      intro s hs
      apply decodeSegment_toXml
      intro p hp
      obtain ⟨g1, g2, g3⟩ := htr t ht s hs p hp
      exact decodePoint_toXml p g1 g2 g3
    · intro w hw
      obtain ⟨g1, g2, g3⟩ := hwp w hw
      exact decodeWaypoint_toXml w g1 g2 g3
  simp only [Gpx.try_from_xml, hroot]

/-- C1: decoding the encoding of any (f64-representable) Document
succeeds and yields a Document with the same number of tracks, the same
number of waypoints, the same number of segments, the same total number
of points, and the same total computed distance. -/
theorem roundtrip_preserves_shape (d : Gpx) (h : GoodGpx d) :
    ∃ d2 : Gpx, Gpx.try_from_xml d.to_xml_tree = .ok d2 ∧
      d2.tracks.length = d.tracks.length ∧
      d2.waypoints.length = d.waypoints.length ∧
      d2.total_segments = d.total_segments ∧
      d2.total_points = d.total_points ∧
      d2.total_distance_km = d.total_distance_km :=
  ⟨d, try_from_xml_to_xml_tree d h, rfl, rfl, rfl, rfl, rfl⟩

/-- A concrete decimal-exact document: one named track with one segment
of two points (elevations and a timestamp), one waypoint, metadata. -/
def roundtripGpx : Gpx :=
  Gpx.mk
    [Track.mk (some "Test Track".toList)
      [TrackSegment.mk
        [Point.mk (⟨50891, 1250, by decide, by decide⟩ : ℚ)
          (⟨-37003, 500, by decide, by decide⟩ : ℚ) (some 10) (some 1000),
         Point.mk 41 (-74) (some (⟨21, 2, by decide, by decide⟩ : ℚ)) none]]]
    [Waypoint.mk 7 8 (some "W".toList) (some 15) (some 9045)]
    (some (Metadata.mk (some "2024-07-11T17:16:43Z".toList)))

/-- Closed instance of `roundtrip_preserves_shape` at `roundtripGpx`,
discharging the representability hypothesis by computation. -/
theorem roundtrip_witness :
    ∃ d2 : Gpx, Gpx.try_from_xml roundtripGpx.to_xml_tree = .ok d2 ∧
      d2.tracks.length = roundtripGpx.tracks.length ∧
      d2.waypoints.length = roundtripGpx.waypoints.length ∧
      d2.total_segments = roundtripGpx.total_segments ∧
      d2.total_points = roundtripGpx.total_points ∧
      d2.total_distance_km = roundtripGpx.total_distance_km :=
  roundtrip_preserves_shape roundtripGpx (by decide)

/-! ## C2: decode failures are structured errors -/

/-- Every error a decoding result can carry is a non-empty diagnostic. -/
def errOk {α : Type} (r : Except (List Char) α) : Prop :=
  ∀ e, r = .error e → e ≠ []

theorem errOk_ok {α : Type} (a : α) : errOk (Except.ok a : Except (List Char) α) := by
  intro e he
  simp at he

theorem errOk_bind {α β : Type} (r : Except (List Char) α)
    (f : α → Except (List Char) β) (h1 : errOk r) (h2 : ∀ a, errOk (f a)) :
    errOk (r >>= f) := by
  intro e he
  cases r with
  | error e1 =>
    rw [show ((Except.error e1 : Except (List Char) α) >>= f)
        = Except.error e1 from rfl] at he
    injection he with he1
    exact he1 ▸ h1 e1 rfl
  | ok a =>
    rw [exceptBind_ok] at he
    exact h2 a e he

theorem errOk_mapM {α : Type} (dec : XmlNode → Except (List Char) α)
    (l : List XmlNode) (h : ∀ x ∈ l, errOk (dec x)) :
    errOk (l.mapM dec) := by
  induction l with
  | nil => exact errOk_ok []
  | cons a t ih =>
    rw [List.mapM_cons]
    exact errOk_bind _ _ (h a (List.mem_cons_self a t))
      (fun x => errOk_bind _ _
        (ih (fun y hy => h y (List.mem_cons_of_mem a hy)))
        (fun xs => errOk_ok (x :: xs)))

theorem head_append_ne_nil (a b : List Char) (ha : a ≠ []) : a ++ b ≠ [] := by
  intro h
  rcases List.append_eq_nil.mp h with ⟨h1, _⟩
  exact ha h1

theorem errOk_getRatAttr (nm : List Char)
    (attrs : List (List Char × List Char)) : errOk (getRatAttr nm attrs) := by
  intro e he
  unfold getRatAttr at he
  split at he
  · injection he with he1
    exact he1 ▸ head_append_ne_nil _ _ (by decide)
  · split at he
    · injection he with he1
      exact he1 ▸ head_append_ne_nil _ _ (by decide)
    · simp at he

theorem errOk_getOptRatChild (nm : List Char) (cs : List XmlNode) :
    errOk (getOptRatChild nm cs) := by
  intro e he
  unfold getOptRatChild at he
  split at he
  · simp at he
  · split at he
    · injection he with he1
      exact he1 ▸ head_append_ne_nil _ _ (by decide)
    · simp at he

theorem errOk_getOptIntChild (nm : List Char) (cs : List XmlNode) :
    errOk (getOptIntChild nm cs) := by
  intro e he
  unfold getOptIntChild at he
  split at he
  · simp at he
  · split at he
    · injection he with he1
      exact he1 ▸ head_append_ne_nil _ _ (by decide)
    · simp at he

theorem errOk_decodePoint (x : XmlNode) : errOk (decodePoint x) := by
  intro e he
  unfold decodePoint at he
  split at he
  · injection he with he1
    exact he1 ▸ (by decide : "expected a trkpt element".toList ≠ [])
  · exact errOk_bind _ _ (errOk_getRatAttr _ _) (fun lat =>
      errOk_bind _ _ (errOk_getRatAttr _ _) (fun lon =>
        errOk_bind _ _ (errOk_getOptRatChild _ _) (fun ele =>
          errOk_bind _ _ (errOk_getOptIntChild _ _) (fun tm =>
            errOk_ok _)))) e he

theorem errOk_decodeSegment (x : XmlNode) : errOk (decodeSegment x) := by
  intro e he
  unfold decodeSegment at he
  split at he
  · injection he with he1
    exact he1 ▸ (by decide : "expected a trkseg element".toList ≠ [])
  · exact errOk_bind _ _ (errOk_mapM _ _ (fun y _ => errOk_decodePoint y))
      (fun ps => errOk_ok _) e he

theorem errOk_decodeTrack (x : XmlNode) : errOk (decodeTrack x) := by
  intro e he
  unfold decodeTrack at he
  split at he
  · injection he with he1
    exact he1 ▸ (by decide : "expected a trk element".toList ≠ [])
  · exact errOk_bind _ _ (errOk_mapM _ _ (fun y _ => errOk_decodeSegment y))
      (fun segs => errOk_ok _) e he

theorem errOk_decodeWaypoint (x : XmlNode) : errOk (decodeWaypoint x) := by
  intro e he
  unfold decodeWaypoint at he
  split at he
  · injection he with he1
    exact he1 ▸ (by decide : "expected a wpt element".toList ≠ [])
  · exact errOk_bind _ _ (errOk_getRatAttr _ _) (fun lat =>
      errOk_bind _ _ (errOk_getRatAttr _ _) (fun lon =>
        errOk_bind _ _ (errOk_getOptRatChild _ _) (fun ele =>
          errOk_bind _ _ (errOk_getOptIntChild _ _) (fun tm =>
            errOk_ok _)))) e he

theorem errOk_decodeRoot (x : XmlNode) : errOk (decodeRoot x) := by
  intro e he
  unfold decodeRoot at he
  split at he
  · injection he with he1
    exact he1 ▸ (by decide : "expected a gpx document".toList ≠ [])
  · split at he
    · exact errOk_bind _ _ (errOk_mapM _ _ (fun y _ => errOk_decodeTrack y))
        (fun trks => errOk_bind _ _
          (errOk_mapM _ _ (fun y _ => errOk_decodeWaypoint y))
          (fun wpts => errOk_ok _)) e he
    · injection he with he1
      exact he1 ▸ (by decide : "expected a gpx root element".toList ≠ [])

theorem errOk_try_from_xml (x : XmlNode) : errOk (Gpx.try_from_xml x) := by
  unfold Gpx.try_from_xml
  cases hr : decodeRoot x with
  | error e1 =>
    intro e he
    injection he with he1
    exact he1 ▸ errOk_decodeRoot x e1 hr
  | ok r => exact errOk_ok _

/-- Whether decoding an XML tree fails to produce a document. -/
def decodeFailed (x : XmlNode) : Bool :=
  match Gpx.try_from_xml x with
  | .ok _ => false
  | .error _ => true

/-- C2: whenever decoding does not produce a Document, it returns a
structured error carrying a non-empty diagnostic, and no Document value
at all (it never silently yields an empty or partial one). -/
theorem decode_failure_structured (x : XmlNode) (h : decodeFailed x = true) :
    ∃ msg, Gpx.try_from_xml x = .error msg ∧ msg ≠ [] ∧
      ∀ g : Gpx, Gpx.try_from_xml x ≠ .ok g := by
  unfold decodeFailed at h
  cases hr : Gpx.try_from_xml x with
  | ok g => rw [hr] at h; simp at h
  | error e =>
    refine ⟨e, rfl, errOk_try_from_xml x e hr, ?_⟩
    intro g hg
    simp at hg

/-- Closed instance of `decode_failure_structured` at the §8 malformed
input ("not valid xml at all", which the external tokenizer surfaces as
plain text rather than a `gpx` element). -/
theorem decode_failure_witness :
    ∃ msg, Gpx.try_from_xml (XmlNode.text "not valid xml at all".toList)
        = .error msg ∧ msg ≠ [] ∧
      ∀ g : Gpx, Gpx.try_from_xml (XmlNode.text "not valid xml at all".toList)
        ≠ .ok g :=
  decode_failure_structured (XmlNode.text "not valid xml at all".toList)
    (by decide)

/-! ## C6: XML declaration and omission of absent fields -/

/-- Whether an element node has a child element with the given name. -/
def hasChild (nm : List Char) (x : XmlNode) : Bool :=
  match x with
  | .elem _ _ cs => (firstChild nm cs).isSome
  | .text _ => false

/-- C6: the encoded text begins with the literal XML declaration, and an
absent optional field (track name, point elevation, point time, waypoint
name, document metadata) produces no tag at all in the output tree. -/
theorem xml_declaration_and_none_fields_omitted :
    (∀ d : Gpx, ∃ rest : String,
      d.to_xml = "<?xml version=\"1.0\" encoding=\"UTF-8\"?>" ++ rest) ∧
    (∀ p : Point, p.elevation = none → hasChild "ele".toList p.toXml = false) ∧
    (∀ p : Point, p.time = none → hasChild "time".toList p.toXml = false) ∧
    (∀ t : Track, t.name = none → hasChild "name".toList t.toXml = false) ∧
    (∀ w : Waypoint, w.name = none → hasChild "name".toList w.toXml = false) ∧
    (∀ d : Gpx, d.metadata = none →
      hasChild "metadata".toList d.to_xml_tree = false) := by
  refine ⟨?_, ?_, ?_, ?_, ?_, ?_⟩
  · intro d
    exact ⟨"\n" ++ String.mk (renderXmlNode d.to_xml_tree), rfl⟩
  · intro p h
    obtain ⟨lat, lon, ele, tm⟩ := p
    simp only at h
    subst h
    cases tm <;> rfl
  · intro p h
    obtain ⟨lat, lon, ele, tm⟩ := p
    simp only at h
    subst h
    cases ele <;> rfl
  · intro t h
    obtain ⟨nm, segs⟩ := t
    simp only at h
    subst h
    show (firstChild "name".toList
      (optNode none (fun v => XmlNode.elem "name".toList [] [XmlNode.text v])
        ++ segs.map TrackSegment.toXml)).isSome = false
    rw [show optNode none
        (fun v => XmlNode.elem "name".toList [] [XmlNode.text v]) = [] from rfl,
      List.nil_append,
      firstChild_map_ne _ _ _ (fun s => by rfl)]
    rfl
  · intro w h
    obtain ⟨lat, lon, nm, ele, tm⟩ := w
    simp only at h
    subst h
    cases ele <;> cases tm <;> rfl
  · intro d h
    obtain ⟨trks, wpts, md⟩ := d
    simp only at h
    subst h
    have h1 : firstChild "metadata".toList (trks.map Track.toXml) = none :=
      firstChild_map_ne _ _ _ (fun t => by rfl)
    have h2 : firstChild "metadata".toList (wpts.map Waypoint.toXml) = none :=
      firstChild_map_ne _ _ _ (fun w => by rfl)
    show (firstChild "metadata".toList
      (optNode none Metadata.toXml ++ trks.map Track.toXml
        ++ wpts.map Waypoint.toXml)).isSome = false
    rw [show optNode none Metadata.toXml = [] from rfl, List.nil_append]
    simp only [firstChild, List.find?_append] at h1 h2 ⊢
    rw [h1, h2]
    rfl

/-- Closed instance of `xml_declaration_and_none_fields_omitted` at
concrete values, discharging the absence hypotheses. -/
theorem xml_none_fields_omitted_witness :
    hasChild "ele".toList (Point.mk 1 2 none (some 5)).toXml = false ∧
    hasChild "metadata".toList (Gpx.mk [] [Waypoint.mk 1 2 none none none]
      none).to_xml_tree = false :=
  ⟨xml_declaration_and_none_fields_omitted.2.1 (Point.mk 1 2 none (some 5)) rfl,
   xml_declaration_and_none_fields_omitted.2.2.2.2.2
     (Gpx.mk [] [Waypoint.mk 1 2 none none none] none) rfl⟩
